import Mathlib

/-!
Verification of the `intervalle` time-specification parser.

The development shallowly embeds the library:
- the calendar values (`Date`, `Time`, `DateTime`) and their validated
  constructors follow the `time` crate with its default feature set, whose
  supported year range for dates is -9999..=9999;
- `yesterday`/`tomorrow` embed the one-day `checked_sub`/`checked_add` on the
  anchor's date at midnight; a `none` result models the `expect` panic;
- the parser is embedded combinator by combinator after `winnow`: parsers map
  an input and a position to either a value with the new position or an error
  carrying the commit flag (`cut`), the stream position at the point of error,
  the accumulated `StrContext` entries, and the external cause recorded by
  `try_map`. `alt` keeps the most recent backtracking error, mirroring the
  default `or` combination of `ContextError`, and a cut error aborts the
  alternation. The top-level `parse` requires the whole input to be consumed
  and reports the stream position as the failure offset.
-/

namespace Intervalle

variable {α β γ σ : Type}

/-- Leap year rule of the proleptic Gregorian calendar, as in the `time`
crate. -/
def isLeapYear (y : Int) : Bool :=
  y % 4 == 0 && (y % 100 != 0 || y % 400 == 0)

/-- Days in a month, February depending on the leap-year rule. -/
def daysInMonth (y : Int) (m : Nat) : Nat :=
  match m with
  | 1 => 31
  | 2 => if isLeapYear y then 29 else 28
  | 3 => 31
  | 4 => 30
  | 5 => 31
  | 6 => 30
  | 7 => 31
  | 8 => 31
  | 9 => 30
  | 10 => 31
  | 11 => 30
  | 12 => 31
  | _ => 0

structure Date where
  year : Int
  month : Nat
  day : Nat
deriving Repr, DecidableEq

structure Time where
  hour : Nat
  minute : Nat
  second : Nat
deriving Repr, DecidableEq

structure DateTime where
  date : Date
  time : Time
deriving Repr, DecidableEq

def Date.midnight (d : Date) : DateTime := ⟨d, ⟨0, 0, 0⟩⟩

def DateTime.replace_time (dt : DateTime) (t : Time) : DateTime := ⟨dt.date, t⟩

/-- Month validity, as checked by `time::Month::try_from(u8)`. -/
def monthOk (m : Nat) : Bool := decide (1 ≤ m) && decide (m ≤ 12)

/-- Embeds `time::Date::from_calendar_date` (month already validated): the
year-range check precedes the day-range check. -/
def from_calendar_date (y : Int) (m d : Nat) : Except String Date :=
  if y < -9999 ∨ 9999 < y then .error "year component range"
  else if d < 1 ∨ daysInMonth y m < d then .error "day component range"
  else .ok ⟨y, m, d⟩

/-- The closure passed to `try_map` in the `date!` rule: month conversion
first, then the calendar-date constructor. -/
def dateBuild (t : Nat × Nat × Nat) : Except String Date :=
  if monthOk t.2.1 then from_calendar_date (t.1 : Int) t.2.1 t.2.2
  else .error "month component range"

/-- Embeds `time::Time::from_hms`; components are checked in order. -/
def Time.from_hms (h m s : Nat) : Except String Time :=
  if 23 < h then .error "hour component range"
  else if 59 < m then .error "minute component range"
  else if 59 < s then .error "second component range"
  else .ok ⟨h, m, s⟩

/-- Calendar successor of a date. -/
def nextDate (d : Date) : Date :=
  if d.day < daysInMonth d.year d.month then ⟨d.year, d.month, d.day + 1⟩
  else if d.month < 12 then ⟨d.year, d.month + 1, 1⟩
  else ⟨d.year + 1, 1, 1⟩

/-- Calendar predecessor of a date. -/
def prevDate (d : Date) : Date :=
  if 1 < d.day then ⟨d.year, d.month, d.day - 1⟩
  else if 1 < d.month then ⟨d.year, d.month - 1, daysInMonth d.year (d.month - 1)⟩
  else ⟨d.year - 1, 12, 31⟩

/-- Adding one day with the range check of the `time` crate: for a valid date
the result leaves the supported range exactly at 9999-12-31. -/
def checkedAddDay (d : Date) : Option Date :=
  if d.year = 9999 ∧ d.month = 12 ∧ d.day = 31 then none else some (nextDate d)

/-- Subtracting one day with the range check of the `time` crate: for a valid
date the result leaves the supported range exactly at -9999-01-01. -/
def checkedSubDay (d : Date) : Option Date :=
  if d.year = -9999 ∧ d.month = 1 ∧ d.day = 1 then none else some (prevDate d)

/-- Embeds the `yesterday` helper; `none` models the `expect` panic when
`checked_sub` fails. -/
def yesterday (anchor : DateTime) : Option DateTime :=
  (checkedSubDay anchor.date).map Date.midnight

/-- Embeds the `tomorrow` helper; `none` models the `expect` panic when
`checked_add` fails. -/
def tomorrow (anchor : DateTime) : Option DateTime :=
  (checkedAddDay anchor.date).map Date.midnight

inductive TimeSpec where
  | After : DateTime → TimeSpec
  | Before : DateTime → TimeSpec
  | Point : DateTime → TimeSpec
deriving Repr, DecidableEq

/-! Parser model following `winnow`. -/

/-- A `StrContext` entry: a label or an expected character literal. -/
inductive Ctx where
  | label : String → Ctx
  | expectedChar : Char → Ctx
deriving Repr, DecidableEq

/-- A parse error: the commit flag of `ErrMode` (`cut = true` for
`ErrMode::Cut`), the stream position when the error was produced (which is
what the top-level `parse` reports as the offset), the accumulated context
entries, and the external cause stored by `try_map`. -/
structure PErr where
  cut : Bool
  pos : Nat
  ctx : List Ctx
  cause : Option String
deriving Repr, DecidableEq

inductive PRes (α : Type) where
  | ok : α → Nat → PRes α
  | err : PErr → PRes α
deriving Repr, DecidableEq

/-- A parser over a fixed input list of characters and a current position. -/
abbrev P (α : Type) := List Char → Nat → PRes α

/-- Embeds `literal`: match an exact sequence, backtrack error otherwise. -/
def pLiteral (t : List Char) : P (List Char) := fun inp pos =>
  if (inp.drop pos).take t.length = t then .ok t (pos + t.length)
  else .err ⟨false, pos, [], none⟩

/-- ASCII decimal digit test. -/
def isDig (c : Char) : Bool := 48 ≤ c.toNat && c.toNat ≤ 57

/-- Length of the maximal digit run at the head of the list. -/
def digitRunLen : List Char → Nat
  | [] => 0
  | c :: cs => if isDig c then digitRunLen cs + 1 else 0

/-- Embeds `digit1`: the maximal nonempty run of ASCII digits. -/
def pDigit1 : P (List Char) := fun inp pos =>
  if digitRunLen (inp.drop pos) = 0 then .err ⟨false, pos, [], none⟩
  else .ok ((inp.drop pos).take (digitRunLen (inp.drop pos))) (pos + digitRunLen (inp.drop pos))

def pMap (f : α → β) (p : P α) : P β := fun inp pos =>
  match p inp pos with
  | .ok a p2 => .ok (f a) p2
  | .err e => .err e

/-- Embeds `Parser::value` (the value is computed eagerly by the caller). -/
def pValue (b : β) (p : P α) : P β := pMap (fun _ => b) p

/-- Embeds `Parser::verify`: on filter failure the stream is reset to the
start of the parser and a backtracking error is produced there. -/
def pVerify (f : α → Bool) (p : P α) : P α := fun inp pos =>
  match p inp pos with
  | .ok a p2 => if f a then .ok a p2 else .err ⟨false, pos, [], none⟩
  | .err e => .err e

/-- Embeds `Parser::try_map`: on map failure the stream is reset to the start
and the external error is recorded as the cause of a backtracking error. -/
def pTryMap (f : α → Except String β) (p : P α) : P β := fun inp pos =>
  match p inp pos with
  | .ok a p2 =>
    match f a with
    | .ok b => .ok b p2
    | .error s => .err ⟨false, pos, [], some s⟩
  | .err e => .err e

/-- Embeds `Parser::context`: append an entry to the error of either mode. -/
def pContext (c : Ctx) (p : P α) : P α := fun inp pos =>
  match p inp pos with
  | .err e => .err { e with ctx := e.ctx ++ [c] }
  | r => r

/-- Embeds `cut_err`: turn a backtracking error into a committed one. -/
def pCutErr (p : P α) : P α := fun inp pos =>
  match p inp pos with
  | .err e => .err { e with cut := true }
  | r => r

/-- Embeds `opt`: a backtracking error resets the stream and yields `none`; a
committed error propagates. -/
def pOpt (p : P α) : P (Option α) := fun inp pos =>
  match p inp pos with
  | .ok a p2 => .ok (some a) p2
  | .err e => if e.cut then .err e else .ok none pos

def pPreceded (p : P α) (q : P β) : P β := fun inp pos =>
  match p inp pos with
  | .ok _ p1 => q inp p1
  | .err e => .err e

def pPair (p : P α) (q : P β) : P (α × β) := fun inp pos =>
  match p inp pos with
  | .ok a p1 =>
    match q inp p1 with
    | .ok b p2 => .ok (a, b) p2
    | .err e => .err e
  | .err e => .err e

def pTriple (p : P α) (q : P β) (r : P γ) : P (α × β × γ) := pPair p (pPair q r)

def pSeparatedPair (p : P α) (s : P σ) (q : P β) : P (α × β) :=
  pMap (fun x => (x.1, x.2.2)) (pTriple p s q)

/-- Embeds `alt`: try each branch from the start position; a committed error
aborts; when every branch backtracks, the error of the last branch is kept
(the `or` combination of `ContextError` keeps the later error, and the stream
is left where the last branch stopped). -/
def pAlt : List (P α) → P α
  | [] => fun _ pos => .err ⟨false, pos, [], none⟩
  | p :: ps => fun inp pos =>
    match p inp pos with
    | .ok a p2 => .ok a p2
    | .err e =>
      if e.cut then .err e
      else
        match ps with
        | [] => .err e
        | _ :: _ => pAlt ps inp pos

/-- Numeric value of a digit run, as `str::parse` reads it. -/
def digitsVal (ds : List Char) : Nat := ds.foldl (fun a c => a * 10 + (c.toNat - 48)) 0

/-- Embeds the `digits!(len, ty)` rule: `digit1` verified to have exactly
`len` digits, converted through `str::parse` (whose overflow bound for the
target type is `bound`), labelled "digit count". -/
def pDigits (len bound : Nat) : P Nat :=
  pContext (.label "digit count")
    (pTryMap
      (fun ds =>
        if bound < digitsVal ds then .error "number too large to fit in target type"
        else .ok (digitsVal ds))
      (pVerify (fun ds => ds.length = len) pDigit1))

/-- The cut date delimiter of the `date!` rule with its two contexts. -/
def pDateDelim : P (List Char) :=
  pContext (.expectedChar '-') (pContext (.label "date delimiter") (pCutErr (pLiteral ['-'])))

/-- Embeds the `date!` rule. -/
def pDate : P DateTime :=
  pContext (.label "date format")
    (pMap Date.midnight
      (pTryMap dateBuild
        (pTriple (pDigits 4 65535)
          (pPreceded pDateDelim (pDigits 2 255))
          (pPreceded pDateDelim (pDigits 2 255)))))

/-- The cut time delimiter of the `time!` rule with its two contexts. -/
def pTimeDelimCut : P (List Char) :=
  pContext (.expectedChar ':') (pContext (.label "time delimiter") (pCutErr (pLiteral [':'])))

/-- The plain (not cut) delimiter before the optional seconds field. -/
def pTimeDelimPlain : P (List Char) :=
  pContext (.expectedChar ':') (pContext (.label "time delimiter") (pLiteral [':']))

/-- The closure passed to `try_map` in the `time!` rule. -/
def timeBuild (t : Nat × Nat × Option Nat) : Except String Time :=
  Time.from_hms t.1 t.2.1 (t.2.2.getD 0)

/-- Embeds the `time!` rule. -/
def pTime : P Time :=
  pTryMap timeBuild
    (pTriple (pDigits 2 255)
      (pPreceded pTimeDelimCut (pCutErr (pDigits 2 255)))
      (pOpt (pPreceded pTimeDelimPlain (pCutErr (pDigits 2 255)))))

/-- The date-plus-space-plus-time alternative of the dispatcher. -/
def pDateAndTime : P DateTime :=
  pContext (.label "time_and_date")
    (pMap (fun x => DateTime.replace_time x.1 x.2)
      (pSeparatedPair pDate
        (pContext (.expectedChar ' ') (pLiteral [' ']))
        (pContext (.label "time") (pCutErr pTime))))

/-- A keyword alternative: a literal carrying an eagerly computed value. -/
def pKeyword (w : List Char) (v : DateTime) : P DateTime := pValue v (pLiteral w)

/-- The five productions of the dispatcher, in source order; `yd` and `td` are
the values computed eagerly by `yesterday`/`tomorrow`. -/
def pBranches (anchor yd td : DateTime) : P DateTime :=
  pAlt [pKeyword "today".toList anchor.date.midnight,
        pKeyword "yesterday".toList yd,
        pKeyword "tomorrow".toList td,
        pDateAndTime,
        pDate,
        pMap anchor.replace_time pTime]

/-- The optional leading sign: `opt(alt(("+", "-")))`. -/
def pModifier : P (Option (List Char)) :=
  pOpt (pAlt [pLiteral ['+'], pLiteral ['-']])

/-- The final map of the dispatcher; the last arm models the `unreachable!()`
branch of the source match. -/
def applyModifier (x : Option (List Char) × DateTime) : TimeSpec :=
  match x.1 with
  | some m => if m = ['+'] then .After x.2 else if m = ['-'] then .Before x.2 else .Point x.2
  | none => .Point x.2

/-- The whole `timespec` parser built inside `parse_with_anchor`. -/
def pTimespec (anchor yd td : DateTime) : P TimeSpec :=
  pMap applyModifier
    (pContext (.label "timespec") (pPair pModifier (pBranches anchor yd td)))

/-- Embeds `Parser::parse`: run from position zero and require the whole
input to be consumed; a leftover yields an end-of-input error at the stream
position, which becomes the reported offset. -/
def runP (p : P α) (inp : List Char) : Except PErr α :=
  match p inp 0 with
  | .ok a pos => if pos = inp.length then .ok a else .error ⟨false, pos, [], none⟩
  | .err e => .error e

/-- Embeds `TimeSpec::parse_with_anchor` on a character list: the keyword
values are computed before parsing, so a failing one-day shift (the `expect`
panic, modelled by `none`) aborts every call regardless of the input. -/
def parseChars (s : List Char) (anchor : DateTime) : Option (Except PErr TimeSpec) :=
  match yesterday anchor, tomorrow anchor with
  | some yd, some td => some (runP (pTimespec anchor yd td) s)
  | _, _ => none

/-- Embeds `TimeSpec::parse_with_anchor`. -/
def TimeSpec.parse_with_anchor (s : String) (anchor : DateTime) :
    Option (Except PErr TimeSpec) :=
  parseChars s.data anchor

/-! Validity predicates and string builders used to state the claims. -/

/-- Validity invariant of a `time::Date`. -/
def Date.Valid (d : Date) : Prop :=
  -9999 ≤ d.year ∧ d.year ≤ 9999 ∧ 1 ≤ d.month ∧ d.month ≤ 12 ∧
    1 ≤ d.day ∧ d.day ≤ daysInMonth d.year d.month

instance (d : Date) : Decidable d.Valid := by
  unfold Date.Valid
  exact inferInstance

/-- Validity invariant of a `time::Time`. -/
def Time.Valid (t : Time) : Prop := t.hour ≤ 23 ∧ t.minute ≤ 59 ∧ t.second ≤ 59

instance (t : Time) : Decidable t.Valid := by
  unfold Time.Valid
  exact inferInstance

/-- Validity invariant of a `time::PrimitiveDateTime`. -/
def DateTime.Valid (dt : DateTime) : Prop := dt.date.Valid ∧ dt.time.Valid

instance (dt : DateTime) : Decidable dt.Valid := by
  unfold DateTime.Valid
  exact inferInstance

/-- The 4-digit-year domain of the specification. -/
def fourDigitYear (d : Date) : Prop := 0 ≤ d.year ∧ d.year ≤ 9999

instance (d : Date) : Decidable (fourDigitYear d) := by
  unfold fourDigitYear
  exact inferInstance

/-- The anchor admits both eager one-day shifts, so the call does not hit the
`expect` panic. -/
def PanicFree (anchor : DateTime) : Prop :=
  (yesterday anchor).isSome ∧ (tomorrow anchor).isSome

instance (anchor : DateTime) : Decidable (PanicFree anchor) := by
  unfold PanicFree
  exact inferInstance

/-- ASCII digit character of a value below ten. -/
def dChar : Nat → Char
  | 0 => '0'
  | 1 => '1'
  | 2 => '2'
  | 3 => '3'
  | 4 => '4'
  | 5 => '5'
  | 6 => '6'
  | 7 => '7'
  | 8 => '8'
  | _ => '9'

/-- Two-digit zero-padded rendering. -/
def pad2 (n : Nat) : List Char := [dChar (n / 10 % 10), dChar (n % 10)]

/-- Four-digit zero-padded rendering. -/
def pad4 (n : Nat) : List Char :=
  [dChar (n / 1000 % 10), dChar (n / 100 % 10), dChar (n / 10 % 10), dChar (n % 10)]

/-- The canonical `YYYY-MM-DD` rendering of a date. -/
def dateStr (y m d : Nat) : List Char := pad4 y ++ '-' :: (pad2 m ++ '-' :: pad2 d)

/-- The canonical `HH:MM` rendering of a time without seconds. -/
def timeStrNoSec (h mi : Nat) : List Char := pad2 h ++ ':' :: pad2 mi

/-- The canonical `HH:MM:SS` rendering of a time with seconds. -/
def timeStrSec (h mi se : Nat) : List Char := pad2 h ++ ':' :: (pad2 mi ++ ':' :: pad2 se)

/-- The canonical `YYYY-MM-DD HH:MM` rendering, with one separator slot. -/
def dtStrNoSec (y m d h mi : Nat) : List Char :=
  dateStr y m d ++ ' ' :: timeStrNoSec h mi

/-- The canonical `YYYY-MM-DD HH:MM:SS` rendering. -/
def dtStrSec (y m d h mi se : Nat) : List Char :=
  dateStr y m d ++ ' ' :: timeStrSec h mi se

/-- The head of the list, if any, is not an ASCII digit. -/
def headNotDig : List Char → Bool
  | [] => true
  | c :: _ => !isDig c

/-- The head of the list, if any, differs from the given character. -/
def headNe (x : Char) : List Char → Bool
  | [] => true
  | c :: _ => !(c == x)

/-- The input begins with four ASCII digits followed by the date delimiter:
the shape under which the first delimiter of the date field matches. -/
def FourDigitsDash (l : List Char) : Prop :=
  ∃ a b c d rest, l = a :: b :: c :: d :: '-' :: rest ∧
    isDig a = true ∧ isDig b = true ∧ isDig c = true ∧ isDig d = true

/-- A parser is bounded when, started inside the input, it stops inside the
input (one past the end at most), both on success and on failure: the stream
position never leaves the string, so every reported offset is meaningful. -/
def Bounded (p : P α) : Prop :=
  ∀ inp pos, pos ≤ inp.length →
    match p inp pos with
    | .ok _ p2 => p2 ≤ inp.length
    | .err e => e.pos ≤ inp.length

/-! Helper lemmas: list bookkeeping and digit runs. -/

theorem drop_append_eq {inp xs rest : List Char} {pos : Nat}
    (h : inp.drop pos = xs ++ rest) : inp.drop (pos + xs.length) = rest := by
  rw [← List.drop_drop, h, List.drop_left]

theorem take_append_eq {inp xs rest : List Char} {pos : Nat}
    (h : inp.drop pos = xs ++ rest) : (inp.drop pos).take xs.length = xs := by
  rw [h, List.take_left]

theorem digitRunLen_append {ds rest : List Char} (hds : ∀ c ∈ ds, isDig c = true)
    (hrest : headNotDig rest = true) : digitRunLen (ds ++ rest) = ds.length := by
  induction ds with
  | nil =>
    simp only [List.nil_append, List.length_nil]
    cases rest with
    | nil => rfl
    | cons c cs =>
      simp only [headNotDig, Bool.not_eq_true'] at hrest
      simp [digitRunLen, hrest]
  | cons c cs ih =>
    have hc : isDig c = true := hds c (List.mem_cons_self c cs)
    simp [digitRunLen, hc, ih (fun x hx => hds x (List.mem_cons_of_mem c hx))]

theorem digitRunLen_append_all {ds l : List Char} (hds : ∀ c ∈ ds, isDig c = true) :
    digitRunLen (ds ++ l) = ds.length + digitRunLen l := by
  induction ds with
  | nil => simp
  | cons c cs ih =>
    have hc : isDig c = true := hds c (List.mem_cons_self c cs)
    have ih2 := ih (fun x hx => hds x (List.mem_cons_of_mem c hx))
    simp only [List.cons_append, digitRunLen, hc, if_true, List.length_cons,
      List.append_eq] at ih2 ⊢
    omega

theorem digitRunLen_le (l : List Char) : digitRunLen l ≤ l.length := by
  induction l with
  | nil => simp [digitRunLen]
  | cons c cs ih =>
    simp only [digitRunLen, List.length_cons]
    split
    · omega
    · omega

theorem ne_of_isDig {c x : Char} (h : isDig c = true) (hx : isDig x = false) : c ≠ x := by
  intro e
  rw [e, hx] at h
  exact Bool.noConfusion h

/-! Helper lemmas: behavior of the individual combinators. -/

theorem pLiteral_ok {inp t rest : List Char} {pos : Nat} (h : inp.drop pos = t ++ rest) :
    pLiteral t inp pos = .ok t (pos + t.length) := by
  simp [pLiteral, take_append_eq h]

theorem pLiteral_err {inp t : List Char} {pos : Nat}
    (h : (inp.drop pos).take t.length ≠ t) :
    pLiteral t inp pos = .err ⟨false, pos, [], none⟩ := by
  simp [pLiteral, h]

theorem pLiteral_err_head {inp r : List Char} {pos : Nat} {x c : Char} {t : List Char}
    (h : inp.drop pos = x :: r) (hne : x ≠ c) :
    pLiteral (c :: t) inp pos = .err ⟨false, pos, [], none⟩ := by
  apply pLiteral_err
  rw [h]
  simp [List.take_succ_cons, hne]

theorem pLiteral_err_nil {inp : List Char} {pos : Nat} {c : Char} {t : List Char}
    (h : inp.drop pos = []) :
    pLiteral (c :: t) inp pos = .err ⟨false, pos, [], none⟩ := by
  apply pLiteral_err
  rw [h]
  simp

theorem pMap_ok {f : α → β} {p : P α} {inp : List Char} {pos : Nat} {a : α} {p2 : Nat}
    (h : p inp pos = .ok a p2) : pMap f p inp pos = .ok (f a) p2 := by
  simp [pMap, h]

theorem pMap_err {f : α → β} {p : P α} {inp : List Char} {pos : Nat} {e : PErr}
    (h : p inp pos = .err e) : pMap f p inp pos = .err e := by
  simp [pMap, h]

theorem pContext_ok {c : Ctx} {p : P α} {inp : List Char} {pos : Nat} {a : α} {p2 : Nat}
    (h : p inp pos = .ok a p2) : pContext c p inp pos = .ok a p2 := by
  simp [pContext, h]

theorem pContext_err {c : Ctx} {p : P α} {inp : List Char} {pos : Nat} {e : PErr}
    (h : p inp pos = .err e) :
    pContext c p inp pos = .err { e with ctx := e.ctx ++ [c] } := by
  simp [pContext, h]

theorem pCutErr_ok {p : P α} {inp : List Char} {pos : Nat} {a : α} {p2 : Nat}
    (h : p inp pos = .ok a p2) : pCutErr p inp pos = .ok a p2 := by
  simp [pCutErr, h]

theorem pCutErr_err {p : P α} {inp : List Char} {pos : Nat} {e : PErr}
    (h : p inp pos = .err e) : pCutErr p inp pos = .err { e with cut := true } := by
  simp [pCutErr, h]

theorem pVerify_ok {f : α → Bool} {p : P α} {inp : List Char} {pos : Nat} {a : α} {p2 : Nat}
    (h : p inp pos = .ok a p2) (hf : f a = true) : pVerify f p inp pos = .ok a p2 := by
  simp [pVerify, h, hf]

theorem pVerify_fail {f : α → Bool} {p : P α} {inp : List Char} {pos : Nat} {a : α} {p2 : Nat}
    (h : p inp pos = .ok a p2) (hf : f a = false) :
    pVerify f p inp pos = .err ⟨false, pos, [], none⟩ := by
  simp [pVerify, h, hf]

theorem pVerify_err {f : α → Bool} {p : P α} {inp : List Char} {pos : Nat} {e : PErr}
    (h : p inp pos = .err e) : pVerify f p inp pos = .err e := by
  simp [pVerify, h]

theorem pTryMap_ok {f : α → Except String β} {p : P α} {inp : List Char} {pos : Nat}
    {a : α} {p2 : Nat} {b : β} (h : p inp pos = .ok a p2) (hf : f a = .ok b) :
    pTryMap f p inp pos = .ok b p2 := by
  simp [pTryMap, h, hf]

theorem pTryMap_fail {f : α → Except String β} {p : P α} {inp : List Char} {pos : Nat}
    {a : α} {p2 : Nat} {s : String} (h : p inp pos = .ok a p2) (hf : f a = .error s) :
    pTryMap f p inp pos = .err ⟨false, pos, [], some s⟩ := by
  simp [pTryMap, h, hf]

theorem pTryMap_err {f : α → Except String β} {p : P α} {inp : List Char} {pos : Nat}
    {e : PErr} (h : p inp pos = .err e) : pTryMap f p inp pos = .err e := by
  simp [pTryMap, h]

theorem pOpt_ok {p : P α} {inp : List Char} {pos : Nat} {a : α} {p2 : Nat}
    (h : p inp pos = .ok a p2) : pOpt p inp pos = .ok (some a) p2 := by
  simp [pOpt, h]

theorem pOpt_backtrack {p : P α} {inp : List Char} {pos : Nat} {e : PErr}
    (h : p inp pos = .err e) (hc : e.cut = false) : pOpt p inp pos = .ok none pos := by
  simp [pOpt, h, hc]

theorem pOpt_cut {p : P α} {inp : List Char} {pos : Nat} {e : PErr}
    (h : p inp pos = .err e) (hc : e.cut = true) : pOpt p inp pos = .err e := by
  simp [pOpt, h, hc]

theorem pPreceded_ok {p : P α} {q : P β} {inp : List Char} {pos : Nat} {a : α} {p1 : Nat}
    (h : p inp pos = .ok a p1) : pPreceded p q inp pos = q inp p1 := by
  simp [pPreceded, h]

theorem pPreceded_err {p : P α} {q : P β} {inp : List Char} {pos : Nat} {e : PErr}
    (h : p inp pos = .err e) : pPreceded p q inp pos = .err e := by
  simp [pPreceded, h]

theorem pPair_ok {p : P α} {q : P β} {inp : List Char} {pos : Nat} {a : α} {p1 : Nat}
    {b : β} {p2 : Nat} (h1 : p inp pos = .ok a p1) (h2 : q inp p1 = .ok b p2) :
    pPair p q inp pos = .ok (a, b) p2 := by
  simp [pPair, h1, h2]

theorem pPair_err1 {p : P α} {q : P β} {inp : List Char} {pos : Nat} {e : PErr}
    (h : p inp pos = .err e) : pPair p q inp pos = .err e := by
  simp [pPair, h]

theorem pPair_err2 {p : P α} {q : P β} {inp : List Char} {pos : Nat} {a : α} {p1 : Nat}
    {e : PErr} (h1 : p inp pos = .ok a p1) (h2 : q inp p1 = .err e) :
    pPair p q inp pos = .err e := by
  simp [pPair, h1, h2]

theorem pAlt_cons_ok {p : P α} {ps : List (P α)} {inp : List Char} {pos : Nat} {a : α}
    {p2 : Nat} (h : p inp pos = .ok a p2) : pAlt (p :: ps) inp pos = .ok a p2 := by
  simp [pAlt, h]

theorem pAlt_cons_cut {p : P α} {ps : List (P α)} {inp : List Char} {pos : Nat} {e : PErr}
    (h : p inp pos = .err e) (hc : e.cut = true) : pAlt (p :: ps) inp pos = .err e := by
  cases ps with
  | nil => simp [pAlt, h, hc]
  | cons q qs => simp [pAlt, h, hc]

theorem pAlt_cons_next {p q : P α} {qs : List (P α)} {inp : List Char} {pos : Nat} {e : PErr}
    (h : p inp pos = .err e) (hc : e.cut = false) :
    pAlt (p :: q :: qs) inp pos = pAlt (q :: qs) inp pos := by
  simp [pAlt, h, hc]

theorem pAlt_single {p : P α} {inp : List Char} {pos : Nat} : pAlt [p] inp pos = p inp pos := by
  cases hp : p inp pos with
  | ok a p2 => simp [pAlt, hp]
  | err e => simp [pAlt, hp]

/-! Helper lemmas: rendered digits. -/

theorem isDig_dChar (k : Nat) : isDig (dChar k) = true := by
  match k with
  | 0 | 1 | 2 | 3 | 4 | 5 | 6 | 7 | 8 => rfl
  | n + 9 => rfl

theorem toNat_dChar {k : Nat} (hk : k ≤ 9) : (dChar k).toNat = 48 + k := by
  interval_cases k <;> rfl

theorem mem_pad2_isDig {n : Nat} {c : Char} (hc : c ∈ pad2 n) : isDig c = true := by
  simp only [pad2, List.mem_cons, List.not_mem_nil, or_false] at hc
  rcases hc with h | h <;> (subst h; exact isDig_dChar _)

theorem mem_pad4_isDig {n : Nat} {c : Char} (hc : c ∈ pad4 n) : isDig c = true := by
  simp only [pad4, List.mem_cons, List.not_mem_nil, or_false] at hc
  rcases hc with h | h | h | h <;> (subst h; exact isDig_dChar _)

theorem digitsVal_pad2 {n : Nat} (hn : n ≤ 99) : digitsVal (pad2 n) = n := by
  have h1 : n / 10 % 10 ≤ 9 := by omega
  have h2 : n % 10 ≤ 9 := by omega
  simp only [digitsVal, pad2, List.foldl, toNat_dChar h1, toNat_dChar h2]
  omega

theorem digitsVal_pad4 {n : Nat} (hn : n ≤ 9999) : digitsVal (pad4 n) = n := by
  have h1 : n / 1000 % 10 ≤ 9 := by omega
  have h2 : n / 100 % 10 ≤ 9 := by omega
  have h3 : n / 10 % 10 ≤ 9 := by omega
  have h4 : n % 10 ≤ 9 := by omega
  simp only [digitsVal, pad4, List.foldl, toNat_dChar h1, toNat_dChar h2, toNat_dChar h3,
    toNat_dChar h4]
  omega

/-! Helper lemmas: the digit-count rule. -/

theorem pDigit1_run_ok {inp : List Char} {pos : Nat} (h0 : digitRunLen (inp.drop pos) ≠ 0) :
    pDigit1 inp pos =
      .ok ((inp.drop pos).take (digitRunLen (inp.drop pos))) (pos + digitRunLen (inp.drop pos)) := by
  unfold pDigit1
  rw [if_neg h0]

theorem pDigit1_err {inp : List Char} {pos : Nat} (h : digitRunLen (inp.drop pos) = 0) :
    pDigit1 inp pos = .err ⟨false, pos, [], none⟩ := by
  unfold pDigit1
  rw [if_pos h]

theorem pDigit1_ok {inp ds rest : List Char} {pos : Nat}
    (h : inp.drop pos = ds ++ rest) (hds : ∀ c ∈ ds, isDig c = true)
    (hrest : headNotDig rest = true) (hne : ds ≠ []) :
    pDigit1 inp pos = .ok ds (pos + ds.length) := by
  have hrun : digitRunLen (inp.drop pos) = ds.length := by
    rw [h]
    exact digitRunLen_append hds hrest
  have hlen : ds.length ≠ 0 := fun h0 => hne (List.length_eq_zero.mp h0)
  rw [pDigit1_run_ok (hrun ▸ hlen), hrun, take_append_eq h]

theorem pDigits_ok {len bound : Nat} {inp ds rest : List Char} {pos : Nat}
    (h : inp.drop pos = ds ++ rest) (hds : ∀ c ∈ ds, isDig c = true)
    (hrest : headNotDig rest = true) (hlen : ds.length = len) (hne : ds ≠ [])
    (hb : ¬ bound < digitsVal ds) :
    pDigits len bound inp pos = .ok (digitsVal ds) (pos + len) := by
  unfold pDigits
  rw [← hlen]
  exact pContext_ok (pTryMap_ok (pVerify_ok (pDigit1_ok h hds hrest hne) (by simp [hlen]))
    (by simp [hb]))

theorem pDigits_err {len bound : Nat} {inp : List Char} {pos : Nat}
    (h : digitRunLen (inp.drop pos) ≠ len) :
    pDigits len bound inp pos = .err ⟨false, pos, [.label "digit count"], none⟩ := by
  unfold pDigits
  by_cases h0 : digitRunLen (inp.drop pos) = 0
  · exact pContext_err (pTryMap_err (pVerify_err (pDigit1_err h0)))
  · have hle : digitRunLen (inp.drop pos) ≤ inp.length - pos := by
      have := digitRunLen_le (inp.drop pos)
      simpa [List.length_drop] using this
    have hf : decide (((inp.drop pos).take (digitRunLen (inp.drop pos))).length = len)
        = false := by
      simp [List.length_take, Nat.min_eq_left hle, h]
    exact pContext_err (pTryMap_err (pVerify_fail (pDigit1_run_ok h0) hf))

/-! Helper lemmas: delimiters. -/

theorem pLiteral_err_headNe {inp : List Char} {pos : Nat} {c : Char} {t : List Char}
    (h : headNe c (inp.drop pos) = true) :
    pLiteral (c :: t) inp pos = .err ⟨false, pos, [], none⟩ := by
  cases hd : inp.drop pos with
  | nil => exact pLiteral_err_nil hd
  | cons x r =>
    rw [hd] at h
    simp only [headNe, Bool.not_eq_true', beq_eq_false_iff_ne, ne_eq] at h
    exact pLiteral_err_head hd h

theorem pDateDelim_ok {inp rest : List Char} {pos : Nat} (h : inp.drop pos = '-' :: rest) :
    pDateDelim inp pos = .ok ['-'] (pos + 1) := by
  unfold pDateDelim
  exact pContext_ok (pContext_ok (pCutErr_ok (pLiteral_ok (h.trans rfl))))

theorem pDateDelim_err {inp : List Char} {pos : Nat} (h : headNe '-' (inp.drop pos) = true) :
    pDateDelim inp pos =
      .err ⟨true, pos, [.label "date delimiter", .expectedChar '-'], none⟩ := by
  unfold pDateDelim
  exact pContext_err (pContext_err (pCutErr_err (pLiteral_err_headNe h)))

theorem pTimeDelimCut_ok {inp rest : List Char} {pos : Nat} (h : inp.drop pos = ':' :: rest) :
    pTimeDelimCut inp pos = .ok [':'] (pos + 1) := by
  unfold pTimeDelimCut
  exact pContext_ok (pContext_ok (pCutErr_ok (pLiteral_ok (h.trans rfl))))

theorem pTimeDelimCut_err {inp : List Char} {pos : Nat}
    (h : headNe ':' (inp.drop pos) = true) :
    pTimeDelimCut inp pos =
      .err ⟨true, pos, [.label "time delimiter", .expectedChar ':'], none⟩ := by
  unfold pTimeDelimCut
  exact pContext_err (pContext_err (pCutErr_err (pLiteral_err_headNe h)))

theorem pTimeDelimPlain_ok {inp rest : List Char} {pos : Nat} (h : inp.drop pos = ':' :: rest) :
    pTimeDelimPlain inp pos = .ok [':'] (pos + 1) := by
  unfold pTimeDelimPlain
  exact pContext_ok (pContext_ok (pLiteral_ok (h.trans rfl)))

theorem pTimeDelimPlain_err {inp : List Char} {pos : Nat}
    (h : headNe ':' (inp.drop pos) = true) :
    pTimeDelimPlain inp pos =
      .err ⟨false, pos, [.label "time delimiter", .expectedChar ':'], none⟩ := by
  unfold pTimeDelimPlain
  exact pContext_err (pContext_err (pLiteral_err_headNe h))

theorem daysInMonth_le (y : Int) (m : Nat) : daysInMonth y m ≤ 31 := by
  unfold daysInMonth
  split <;> first | omega | (split <;> omega)

/-! Helper lemmas: the date and time field builders. -/

theorem dateBuild_ok {y m d : Nat} (hy : y ≤ 9999) (hm : 1 ≤ m) (hm2 : m ≤ 12)
    (hd : 1 ≤ d) (hd2 : d ≤ daysInMonth (y : Int) m) :
    dateBuild (y, m, d) = .ok ⟨(y : Int), m, d⟩ := by
  have hmo : monthOk m = true := by simp [monthOk, hm, hm2]
  simp only [dateBuild, hmo, if_true, from_calendar_date]
  rw [if_neg (by omega), if_neg (by omega)]

theorem pDate_ok {inp rest : List Char} {pos y m d : Nat}
    (h : inp.drop pos = dateStr y m d ++ rest) (hrest : headNotDig rest = true)
    (hy : y ≤ 9999) (hm : 1 ≤ m) (hm2 : m ≤ 12) (hd : 1 ≤ d)
    (hd2 : d ≤ daysInMonth (y : Int) m) :
    pDate inp pos = .ok (Date.midnight ⟨(y : Int), m, d⟩) (pos + 10) := by
  simp only [dateStr, List.append_assoc, List.cons_append] at h
  have hy4 : pDigits 4 65535 inp pos = .ok (digitsVal (pad4 y)) (pos + 4) :=
    pDigits_ok h (fun _ hc => mem_pad4_isDig hc) rfl rfl (by simp [pad4])
      (by rw [digitsVal_pad4 hy]; omega)
  rw [digitsVal_pad4 hy] at hy4
  have h4 : inp.drop (pos + 4) = '-' :: (pad2 m ++ ('-' :: (pad2 d ++ rest))) := by
    have h0 := drop_append_eq h
    simpa using h0
  have h5 : inp.drop (pos + 4 + 1) = pad2 m ++ ('-' :: (pad2 d ++ rest)) := by
    have h4x : inp.drop (pos + 4) = ['-'] ++ (pad2 m ++ ('-' :: (pad2 d ++ rest))) := h4
    have h0 := drop_append_eq h4x
    simpa using h0
  have hm99 : m ≤ 99 := by omega
  have hmm : pDigits 2 255 inp (pos + 4 + 1) = .ok (digitsVal (pad2 m)) (pos + 4 + 1 + 2) :=
    pDigits_ok h5 (fun _ hc => mem_pad2_isDig hc) rfl rfl (by simp [pad2])
      (by rw [digitsVal_pad2 hm99]; omega)
  rw [digitsVal_pad2 hm99] at hmm
  have h7 : inp.drop (pos + 4 + 1 + 2) = '-' :: (pad2 d ++ rest) := by
    have h0 := drop_append_eq h5
    simpa using h0
  have h8 : inp.drop (pos + 4 + 1 + 2 + 1) = pad2 d ++ rest := by
    have h7x : inp.drop (pos + 4 + 1 + 2) = ['-'] ++ (pad2 d ++ rest) := h7
    have h0 := drop_append_eq h7x
    simpa using h0
  have hd99 : d ≤ 99 := le_trans hd2 (le_trans (daysInMonth_le _ _) (by omega))
  have hdd : pDigits 2 255 inp (pos + 4 + 1 + 2 + 1)
      = .ok (digitsVal (pad2 d)) (pos + 4 + 1 + 2 + 1 + 2) :=
    pDigits_ok h8 (fun _ hc => mem_pad2_isDig hc) hrest rfl (by simp [pad2])
      (by rw [digitsVal_pad2 hd99]; omega)
  rw [digitsVal_pad2 hd99] at hdd
  have htriple : pTriple (pDigits 4 65535)
      (pPreceded pDateDelim (pDigits 2 255))
      (pPreceded pDateDelim (pDigits 2 255)) inp pos
      = .ok (y, m, d) (pos + 4 + 1 + 2 + 1 + 2) := by
    unfold pTriple
    exact pPair_ok hy4 (pPair_ok ((pPreceded_ok (pDateDelim_ok h4)).trans hmm)
      ((pPreceded_ok (pDateDelim_ok h7)).trans hdd))
  have hpos : pos + 4 + 1 + 2 + 1 + 2 = pos + 10 := by omega
  rw [hpos] at htriple
  unfold pDate
  exact pContext_ok (pMap_ok (pTryMap_ok htriple
    (dateBuild_ok hy hm hm2 hd hd2)))

theorem pDate_err_run {inp : List Char} {pos : Nat} (h : digitRunLen (inp.drop pos) ≠ 4) :
    pDate inp pos =
      .err ⟨false, pos, [.label "digit count", .label "date format"], none⟩ := by
  unfold pDate pTriple
  exact pContext_err (pMap_err (pTryMap_err (pPair_err1 (pDigits_err h))))

theorem pDate_err_build {inp rest : List Char} {pos y m d : Nat} {s : String}
    (h : inp.drop pos = dateStr y m d ++ rest) (hrest : headNotDig rest = true)
    (hy : y ≤ 9999) (hm : m ≤ 99) (hd : d ≤ 99)
    (hbad : dateBuild (y, m, d) = .error s) :
    pDate inp pos = .err ⟨false, pos, [.label "date format"], some s⟩ := by
  simp only [dateStr, List.append_assoc, List.cons_append] at h
  have hy4 : pDigits 4 65535 inp pos = .ok (digitsVal (pad4 y)) (pos + 4) :=
    pDigits_ok h (fun _ hc => mem_pad4_isDig hc) rfl rfl (by simp [pad4])
      (by rw [digitsVal_pad4 hy]; omega)
  rw [digitsVal_pad4 hy] at hy4
  have h4 : inp.drop (pos + 4) = '-' :: (pad2 m ++ ('-' :: (pad2 d ++ rest))) := by
    have h0 := drop_append_eq h
    simpa using h0
  have h5 : inp.drop (pos + 4 + 1) = pad2 m ++ ('-' :: (pad2 d ++ rest)) := by
    have h4x : inp.drop (pos + 4) = ['-'] ++ (pad2 m ++ ('-' :: (pad2 d ++ rest))) := h4
    have h0 := drop_append_eq h4x
    simpa using h0
  have hmm : pDigits 2 255 inp (pos + 4 + 1) = .ok (digitsVal (pad2 m)) (pos + 4 + 1 + 2) :=
    pDigits_ok h5 (fun _ hc => mem_pad2_isDig hc) rfl rfl (by simp [pad2])
      (by rw [digitsVal_pad2 hm]; omega)
  rw [digitsVal_pad2 hm] at hmm
  have h7 : inp.drop (pos + 4 + 1 + 2) = '-' :: (pad2 d ++ rest) := by
    have h0 := drop_append_eq h5
    simpa using h0
  have h8 : inp.drop (pos + 4 + 1 + 2 + 1) = pad2 d ++ rest := by
    have h7x : inp.drop (pos + 4 + 1 + 2) = ['-'] ++ (pad2 d ++ rest) := h7
    have h0 := drop_append_eq h7x
    simpa using h0
  have hdd : pDigits 2 255 inp (pos + 4 + 1 + 2 + 1)
      = .ok (digitsVal (pad2 d)) (pos + 4 + 1 + 2 + 1 + 2) :=
    pDigits_ok h8 (fun _ hc => mem_pad2_isDig hc) hrest rfl (by simp [pad2])
      (by rw [digitsVal_pad2 hd]; omega)
  rw [digitsVal_pad2 hd] at hdd
  have htriple : pTriple (pDigits 4 65535)
      (pPreceded pDateDelim (pDigits 2 255))
      (pPreceded pDateDelim (pDigits 2 255)) inp pos
      = .ok (y, m, d) (pos + 4 + 1 + 2 + 1 + 2) := by
    unfold pTriple
    exact pPair_ok hy4 (pPair_ok ((pPreceded_ok (pDateDelim_ok h4)).trans hmm)
      ((pPreceded_ok (pDateDelim_ok h7)).trans hdd))
  unfold pDate
  exact pContext_err (pMap_err (pTryMap_fail htriple hbad))

theorem pDate_err_day {inp rest2 : List Char} {pos y m : Nat}
    (h : inp.drop pos = pad4 y ++ ('-' :: (pad2 m ++ ('-' :: rest2))))
    (hy : y ≤ 9999) (hm99 : m ≤ 99) (hrun : digitRunLen rest2 ≠ 2) :
    pDate inp pos
      = .err ⟨false, pos + 8, [.label "digit count", .label "date format"], none⟩ := by
  have hy4 : pDigits 4 65535 inp pos = .ok (digitsVal (pad4 y)) (pos + 4) :=
    pDigits_ok h (fun _ hc => mem_pad4_isDig hc) rfl rfl (by simp [pad4])
      (by rw [digitsVal_pad4 hy]; omega)
  have h4 : inp.drop (pos + 4) = '-' :: (pad2 m ++ ('-' :: rest2)) := by
    have h0 := drop_append_eq h
    simpa using h0
  have h5 : inp.drop (pos + 4 + 1) = pad2 m ++ ('-' :: rest2) := by
    have h4x : inp.drop (pos + 4) = ['-'] ++ (pad2 m ++ ('-' :: rest2)) := h4
    have h0 := drop_append_eq h4x
    simpa using h0
  have hmm : pDigits 2 255 inp (pos + 4 + 1) = .ok (digitsVal (pad2 m)) (pos + 4 + 1 + 2) :=
    pDigits_ok h5 (fun _ hc => mem_pad2_isDig hc) rfl rfl (by simp [pad2])
      (by rw [digitsVal_pad2 hm99]; omega)
  have h7 : inp.drop (pos + 4 + 1 + 2) = '-' :: rest2 := by
    have h0 := drop_append_eq h5
    simpa using h0
  have h8 : inp.drop (pos + 4 + 1 + 2 + 1) = rest2 := by
    have h7x : inp.drop (pos + 4 + 1 + 2) = ['-'] ++ rest2 := h7
    have h0 := drop_append_eq h7x
    simpa using h0
  have hdd : pDigits 2 255 inp (pos + 4 + 1 + 2 + 1)
      = .err ⟨false, pos + 4 + 1 + 2 + 1, [.label "digit count"], none⟩ :=
    pDigits_err (by rw [h8]; exact hrun)
  have htriple : pTriple (pDigits 4 65535)
      (pPreceded pDateDelim (pDigits 2 255))
      (pPreceded pDateDelim (pDigits 2 255)) inp pos
      = .err ⟨false, pos + 4 + 1 + 2 + 1, [.label "digit count"], none⟩ := by
    unfold pTriple
    exact pPair_err2 hy4 (pPair_err2 ((pPreceded_ok (pDateDelim_ok h4)).trans hmm)
      ((pPreceded_ok (pDateDelim_ok h7)).trans hdd))
  have hpos : pos + 4 + 1 + 2 + 1 = pos + 8 := by omega
  rw [hpos] at htriple
  unfold pDate
  exact pContext_err (pMap_err (pTryMap_err htriple))

theorem from_hms_ok {h m s : Nat} (hh : h ≤ 23) (hm : m ≤ 59) (hs : s ≤ 59) :
    Time.from_hms h m s = .ok ⟨h, m, s⟩ := by
  unfold Time.from_hms
  rw [if_neg (by omega), if_neg (by omega), if_neg (by omega)]

theorem pTimeTuple_nosec {inp rest : List Char} {pos h mi : Nat}
    (hdrop : inp.drop pos = timeStrNoSec h mi ++ rest) (hrest : headNotDig rest = true)
    (hrest2 : headNe ':' rest = true) (hh99 : h ≤ 99) (hmi99 : mi ≤ 99) :
    pTriple (pDigits 2 255)
      (pPreceded pTimeDelimCut (pCutErr (pDigits 2 255)))
      (pOpt (pPreceded pTimeDelimPlain (pCutErr (pDigits 2 255)))) inp pos
      = .ok (h, mi, none) (pos + 5) := by
  simp only [timeStrNoSec, List.append_assoc, List.cons_append] at hdrop
  have hh2 : pDigits 2 255 inp pos = .ok (digitsVal (pad2 h)) (pos + 2) :=
    pDigits_ok hdrop (fun _ hc => mem_pad2_isDig hc) rfl rfl (by simp [pad2])
      (by rw [digitsVal_pad2 hh99]; omega)
  rw [digitsVal_pad2 hh99] at hh2
  have h2 : inp.drop (pos + 2) = ':' :: (pad2 mi ++ rest) := by
    have h0 := drop_append_eq hdrop
    simpa using h0
  have h3 : inp.drop (pos + 2 + 1) = pad2 mi ++ rest := by
    have h2x : inp.drop (pos + 2) = [':'] ++ (pad2 mi ++ rest) := h2
    have h0 := drop_append_eq h2x
    simpa using h0
  have hm2 : pDigits 2 255 inp (pos + 2 + 1) = .ok (digitsVal (pad2 mi)) (pos + 2 + 1 + 2) :=
    pDigits_ok h3 (fun _ hc => mem_pad2_isDig hc) hrest rfl (by simp [pad2])
      (by rw [digitsVal_pad2 hmi99]; omega)
  rw [digitsVal_pad2 hmi99] at hm2
  have h5 : inp.drop (pos + 2 + 1 + 2) = rest := by
    have h0 := drop_append_eq h3
    simpa using h0
  have hopt : pOpt (pPreceded pTimeDelimPlain (pCutErr (pDigits 2 255))) inp (pos + 2 + 1 + 2)
      = .ok none (pos + 2 + 1 + 2) :=
    pOpt_backtrack (pPreceded_err (pTimeDelimPlain_err (h5 ▸ hrest2))) rfl
  have htriple : pTriple (pDigits 2 255)
      (pPreceded pTimeDelimCut (pCutErr (pDigits 2 255)))
      (pOpt (pPreceded pTimeDelimPlain (pCutErr (pDigits 2 255)))) inp pos
      = .ok (h, mi, none) (pos + 2 + 1 + 2) := by
    unfold pTriple
    exact pPair_ok hh2 (pPair_ok
      ((pPreceded_ok (pTimeDelimCut_ok h2)).trans (pCutErr_ok hm2)) hopt)
  have hpos : pos + 2 + 1 + 2 = pos + 5 := by omega
  rw [hpos] at htriple
  exact htriple

theorem pTimeTuple_sec {inp rest : List Char} {pos h mi se : Nat}
    (hdrop : inp.drop pos = timeStrSec h mi se ++ rest) (hrest : headNotDig rest = true)
    (hh99 : h ≤ 99) (hmi99 : mi ≤ 99) (hse99 : se ≤ 99) :
    pTriple (pDigits 2 255)
      (pPreceded pTimeDelimCut (pCutErr (pDigits 2 255)))
      (pOpt (pPreceded pTimeDelimPlain (pCutErr (pDigits 2 255)))) inp pos
      = .ok (h, mi, some se) (pos + 8) := by
  simp only [timeStrSec, List.append_assoc, List.cons_append] at hdrop
  have hh2 : pDigits 2 255 inp pos = .ok (digitsVal (pad2 h)) (pos + 2) :=
    pDigits_ok hdrop (fun _ hc => mem_pad2_isDig hc) rfl rfl (by simp [pad2])
      (by rw [digitsVal_pad2 hh99]; omega)
  rw [digitsVal_pad2 hh99] at hh2
  have h2 : inp.drop (pos + 2) = ':' :: (pad2 mi ++ (':' :: (pad2 se ++ rest))) := by
    have h0 := drop_append_eq hdrop
    simpa using h0
  have h3 : inp.drop (pos + 2 + 1) = pad2 mi ++ (':' :: (pad2 se ++ rest)) := by
    have h2x : inp.drop (pos + 2) = [':'] ++ (pad2 mi ++ (':' :: (pad2 se ++ rest))) := h2
    have h0 := drop_append_eq h2x
    simpa using h0
  have hm2 : pDigits 2 255 inp (pos + 2 + 1) = .ok (digitsVal (pad2 mi)) (pos + 2 + 1 + 2) :=
    pDigits_ok h3 (fun _ hc => mem_pad2_isDig hc) rfl rfl (by simp [pad2])
      (by rw [digitsVal_pad2 hmi99]; omega)
  rw [digitsVal_pad2 hmi99] at hm2
  have h5 : inp.drop (pos + 2 + 1 + 2) = ':' :: (pad2 se ++ rest) := by
    have h0 := drop_append_eq h3
    simpa using h0
  have h6 : inp.drop (pos + 2 + 1 + 2 + 1) = pad2 se ++ rest := by
    have h5x : inp.drop (pos + 2 + 1 + 2) = [':'] ++ (pad2 se ++ rest) := h5
    have h0 := drop_append_eq h5x
    simpa using h0
  have hs2 : pDigits 2 255 inp (pos + 2 + 1 + 2 + 1)
      = .ok (digitsVal (pad2 se)) (pos + 2 + 1 + 2 + 1 + 2) :=
    pDigits_ok h6 (fun _ hc => mem_pad2_isDig hc) hrest rfl (by simp [pad2])
      (by rw [digitsVal_pad2 hse99]; omega)
  rw [digitsVal_pad2 hse99] at hs2
  have hopt : pOpt (pPreceded pTimeDelimPlain (pCutErr (pDigits 2 255))) inp (pos + 2 + 1 + 2)
      = .ok (some se) (pos + 2 + 1 + 2 + 1 + 2) :=
    pOpt_ok ((pPreceded_ok (pTimeDelimPlain_ok h5)).trans (pCutErr_ok hs2))
  have htriple : pTriple (pDigits 2 255)
      (pPreceded pTimeDelimCut (pCutErr (pDigits 2 255)))
      (pOpt (pPreceded pTimeDelimPlain (pCutErr (pDigits 2 255)))) inp pos
      = .ok (h, mi, some se) (pos + 2 + 1 + 2 + 1 + 2) := by
    unfold pTriple
    exact pPair_ok hh2 (pPair_ok
      ((pPreceded_ok (pTimeDelimCut_ok h2)).trans (pCutErr_ok hm2)) hopt)
  have hpos : pos + 2 + 1 + 2 + 1 + 2 = pos + 8 := by omega
  rw [hpos] at htriple
  exact htriple

theorem pTime_ok_nosec {inp rest : List Char} {pos h mi : Nat}
    (hdrop : inp.drop pos = timeStrNoSec h mi ++ rest) (hrest : headNotDig rest = true)
    (hrest2 : headNe ':' rest = true) (hh : h ≤ 23) (hmi : mi ≤ 59) :
    pTime inp pos = .ok ⟨h, mi, 0⟩ (pos + 5) := by
  unfold pTime
  exact pTryMap_ok (pTimeTuple_nosec hdrop hrest hrest2 (by omega) (by omega))
    (by simpa [timeBuild] using from_hms_ok hh hmi (by omega))

theorem pTime_ok_sec {inp rest : List Char} {pos h mi se : Nat}
    (hdrop : inp.drop pos = timeStrSec h mi se ++ rest) (hrest : headNotDig rest = true)
    (hh : h ≤ 23) (hmi : mi ≤ 59) (hse : se ≤ 59) :
    pTime inp pos = .ok ⟨h, mi, se⟩ (pos + 8) := by
  unfold pTime
  exact pTryMap_ok (pTimeTuple_sec hdrop hrest (by omega) (by omega) (by omega))
    (by simpa [timeBuild] using from_hms_ok hh hmi hse)

theorem pTime_err_range_nosec {inp rest : List Char} {pos h mi : Nat} {s : String}
    (hdrop : inp.drop pos = timeStrNoSec h mi ++ rest) (hrest : headNotDig rest = true)
    (hrest2 : headNe ':' rest = true) (hh99 : h ≤ 99) (hmi99 : mi ≤ 99)
    (hbad : Time.from_hms h mi 0 = .error s) :
    pTime inp pos = .err ⟨false, pos, [], some s⟩ := by
  unfold pTime
  exact pTryMap_fail (pTimeTuple_nosec hdrop hrest hrest2 hh99 hmi99)
    (by simpa [timeBuild] using hbad)

theorem pTime_err_range_sec {inp rest : List Char} {pos h mi se : Nat} {s : String}
    (hdrop : inp.drop pos = timeStrSec h mi se ++ rest) (hrest : headNotDig rest = true)
    (hh99 : h ≤ 99) (hmi99 : mi ≤ 99) (hse99 : se ≤ 99)
    (hbad : Time.from_hms h mi se = .error s) :
    pTime inp pos = .err ⟨false, pos, [], some s⟩ := by
  unfold pTime
  exact pTryMap_fail (pTimeTuple_sec hdrop hrest hh99 hmi99 hse99)
    (by simpa [timeBuild] using hbad)

theorem pTime_err_run {inp : List Char} {pos : Nat} (h : digitRunLen (inp.drop pos) ≠ 2) :
    pTime inp pos = .err ⟨false, pos, [.label "digit count"], none⟩ := by
  unfold pTime pTriple
  exact pTryMap_err (pPair_err1 (pDigits_err h))

/-! Helper lemmas: the dispatcher. -/

theorem pKeyword_err_head {inp r : List Char} {pos : Nat} {x c : Char} {w t : List Char}
    {v : DateTime} (hw : w = c :: t) (hd : inp.drop pos = x :: r) (hne : x ≠ c) :
    pKeyword w v inp pos = .err ⟨false, pos, [], none⟩ := by
  subst hw
  unfold pKeyword pValue
  exact pMap_err (pLiteral_err_head hd hne)

/-- On an input whose next character is a digit, the three keyword branches
fail and the dispatcher is left with the date-led and time alternatives. -/
theorem pBranches_digit {anchor yd td : DateTime} {inp r : List Char} {pos : Nat} {x : Char}
    (hd : inp.drop pos = x :: r) (hx : isDig x = true) :
    pBranches anchor yd td inp pos
      = pAlt [pDateAndTime, pDate, pMap anchor.replace_time pTime] inp pos := by
  unfold pBranches
  have e1 : pKeyword "today".toList anchor.date.midnight inp pos
      = .err ⟨false, pos, [], none⟩ :=
    pKeyword_err_head rfl hd (ne_of_isDig hx (by decide))
  have e2 : pKeyword "yesterday".toList yd inp pos = .err ⟨false, pos, [], none⟩ :=
    pKeyword_err_head rfl hd (ne_of_isDig hx (by decide))
  have e3 : pKeyword "tomorrow".toList td inp pos = .err ⟨false, pos, [], none⟩ :=
    pKeyword_err_head rfl hd (ne_of_isDig hx (by decide))
  rw [pAlt_cons_next e1 rfl, pAlt_cons_next e2 rfl, pAlt_cons_next e3 rfl]

theorem pModifier_none {inp : List Char} {pos : Nat}
    (h1 : headNe '+' (inp.drop pos) = true) (h2 : headNe '-' (inp.drop pos) = true) :
    pModifier inp pos = .ok none pos := by
  unfold pModifier
  have halt : pAlt [pLiteral ['+'], pLiteral ['-']] inp pos = .err ⟨false, pos, [], none⟩ := by
    rw [pAlt_cons_next (pLiteral_err_headNe h1) rfl, pAlt_single]
    exact pLiteral_err_headNe h2
  exact pOpt_backtrack halt rfl

theorem pModifier_plus {inp r : List Char} {pos : Nat} (h : inp.drop pos = '+' :: r) :
    pModifier inp pos = .ok (some ['+']) (pos + 1) := by
  unfold pModifier
  exact pOpt_ok (pAlt_cons_ok (pLiteral_ok (h.trans rfl)))

theorem pModifier_minus {inp r : List Char} {pos : Nat} (h : inp.drop pos = '-' :: r) :
    pModifier inp pos = .ok (some ['-']) (pos + 1) := by
  unfold pModifier
  have h1 : headNe '+' (inp.drop pos) = true := by rw [h]; rfl
  apply pOpt_ok
  rw [pAlt_cons_next (pLiteral_err_headNe h1) rfl, pAlt_single]
  exact pLiteral_ok (h.trans rfl)

theorem runP_full {p : P TimeSpec} {inp : List Char} {a : TimeSpec}
    (h : p inp 0 = .ok a inp.length) : runP p inp = .ok a := by
  simp [runP, h]

theorem runP_trailing {p : P TimeSpec} {inp : List Char} {a : TimeSpec} {pos : Nat}
    (h : p inp 0 = .ok a pos) (hne : pos ≠ inp.length) :
    runP p inp = .error ⟨false, pos, [], none⟩ := by
  simp [runP, h, hne]

theorem runP_err {p : P TimeSpec} {inp : List Char} {e : PErr} (h : p inp 0 = .err e) :
    runP p inp = .error e := by
  simp [runP, h]

theorem parseChars_eq {anchor yd td : DateTime} {s : List Char}
    (h1 : yesterday anchor = some yd) (h2 : tomorrow anchor = some td) :
    parseChars s anchor = some (runP (pTimespec anchor yd td) s) := by
  unfold parseChars
  rw [h1, h2]

theorem pTimespec_ok {anchor yd td : DateTime} {inp : List Char} {mo : Option (List Char)}
    {p1 : Nat} {dt : DateTime} {p2 : Nat}
    (h1 : pModifier inp 0 = .ok mo p1)
    (h2 : pBranches anchor yd td inp p1 = .ok dt p2) :
    pTimespec anchor yd td inp 0 = .ok (applyModifier (mo, dt)) p2 := by
  unfold pTimespec
  exact pMap_ok (pContext_ok (pPair_ok h1 h2))

theorem pTimespec_err {anchor yd td : DateTime} {inp : List Char} {mo : Option (List Char)}
    {p1 : Nat} {e : PErr}
    (h1 : pModifier inp 0 = .ok mo p1)
    (h2 : pBranches anchor yd td inp p1 = .err e) :
    pTimespec anchor yd td inp 0 = .err { e with ctx := e.ctx ++ [.label "timespec"] } := by
  unfold pTimespec
  exact pMap_err (pContext_err (pPair_err2 h1 h2))

theorem headNe_cons_of_ne {x c : Char} {r : List Char} (h : x ≠ c) :
    headNe c (x :: r) = true := by
  simp [headNe, h]

theorem headNe_of_isDig {x c : Char} {r : List Char} (hx : isDig x = true)
    (hc : isDig c = false) : headNe c (x :: r) = true :=
  headNe_cons_of_ne (ne_of_isDig hx hc)

theorem dateStr_length (y m d : Nat) : (dateStr y m d).length = 10 := rfl

theorem dateStr_run (y m d : Nat) : digitRunLen (dateStr y m d) = 4 := by
  have h : digitRunLen (pad4 y ++ ('-' :: (pad2 m ++ '-' :: pad2 d))) = (pad4 y).length :=
    digitRunLen_append (fun _ hc => mem_pad4_isDig hc) rfl
  simpa [dateStr] using h

theorem timeStrNoSec_run (h mi : Nat) : digitRunLen (timeStrNoSec h mi) = 2 := by
  have h0 : digitRunLen (pad2 h ++ (':' :: pad2 mi)) = (pad2 h).length :=
    digitRunLen_append (fun _ hc => mem_pad2_isDig hc) rfl
  simpa [timeStrNoSec] using h0

theorem timeStrSec_run (h mi se : Nat) : digitRunLen (timeStrSec h mi se) = 2 := by
  have h0 : digitRunLen (pad2 h ++ (':' :: (pad2 mi ++ ':' :: pad2 se))) = (pad2 h).length :=
    digitRunLen_append (fun _ hc => mem_pad2_isDig hc) rfl
  simpa [timeStrSec] using h0

theorem pDateAndTime_ok {inp r : List Char} {pos p2 : Nat} {dt : DateTime} {t : Time}
    {p3 : Nat} (hdate : pDate inp pos = .ok dt p2) (hsp : inp.drop p2 = ' ' :: r)
    (htime : pTime inp (p2 + 1) = .ok t p3) :
    pDateAndTime inp pos = .ok (dt.replace_time t) p3 := by
  unfold pDateAndTime pSeparatedPair pTriple
  have hsep : pContext (.expectedChar ' ') (pLiteral [' ']) inp p2 = .ok [' '] (p2 + 1) :=
    pContext_ok (pLiteral_ok (hsp.trans rfl))
  have ht2 : pContext (.label "time") (pCutErr pTime) inp (p2 + 1) = .ok t p3 :=
    pContext_ok (pCutErr_ok htime)
  exact pContext_ok (pMap_ok (pMap_ok (pPair_ok hdate (pPair_ok hsep ht2))))

theorem pDateAndTime_err_nospace {inp : List Char} {pos p2 : Nat} {dt : DateTime}
    (hdate : pDate inp pos = .ok dt p2) (hsp : headNe ' ' (inp.drop p2) = true) :
    pDateAndTime inp pos
      = .err ⟨false, p2, [.expectedChar ' ', .label "time_and_date"], none⟩ := by
  unfold pDateAndTime pSeparatedPair pTriple
  have hsep : pContext (.expectedChar ' ') (pLiteral [' ']) inp p2
      = .err ⟨false, p2, [.expectedChar ' '], none⟩ :=
    pContext_err (pLiteral_err_headNe hsp)
  exact pContext_err (pMap_err (pMap_err (pPair_err2 hdate (pPair_err1 hsep))))

theorem pDateAndTime_err_date {inp : List Char} {pos : Nat} {e : PErr}
    (h : pDate inp pos = .err e) :
    pDateAndTime inp pos = .err { e with ctx := e.ctx ++ [.label "time_and_date"] } := by
  unfold pDateAndTime pSeparatedPair pTriple
  exact pContext_err (pMap_err (pMap_err (pPair_err1 h)))

theorem dateBuild_err {y m d : Nat} (hy : y ≤ 9999)
    (hbad : ¬(1 ≤ m ∧ m ≤ 12 ∧ 1 ≤ d ∧ d ≤ daysInMonth (y : Int) m)) :
    ∃ s, dateBuild (y, m, d) = .error s := by
  unfold dateBuild from_calendar_date
  dsimp only
  by_cases hm : 1 ≤ m ∧ m ≤ 12
  · have hmo : monthOk m = true := by simp [monthOk, hm.1, hm.2]
    rw [hmo, if_pos rfl, if_neg (by omega), if_pos (by omega)]
    exact ⟨_, rfl⟩
  · have hmo : monthOk m = false := by
      simp only [monthOk, Bool.and_eq_false_iff, decide_eq_false_iff_not]
      omega
    rw [hmo]
    simp only [Bool.false_eq_true, if_false]
    exact ⟨_, rfl⟩

theorem dateStr_head (y m d : Nat) :
    ∃ r, dateStr y m d = dChar (y / 1000 % 10) :: r := ⟨_, rfl⟩

theorem timeStrNoSec_head (h mi : Nat) :
    ∃ r, timeStrNoSec h mi = dChar (h / 10 % 10) :: r := ⟨_, rfl⟩

theorem timeStrSec_head (h mi se : Nat) :
    ∃ r, timeStrSec h mi se = dChar (h / 10 % 10) :: r := ⟨_, rfl⟩

/-! Whole-parse lemmas for the canonical input shapes. -/

theorem parse_dateStr_ok {y m d : Nat} {anchor yd td : DateTime}
    (h1 : yesterday anchor = some yd) (h2 : tomorrow anchor = some td)
    (hy : y ≤ 9999) (hm : 1 ≤ m) (hm2 : m ≤ 12) (hd : 1 ≤ d)
    (hd2 : d ≤ daysInMonth (y : Int) m) :
    parseChars (dateStr y m d) anchor
      = some (.ok (.Point (Date.midnight ⟨(y : Int), m, d⟩))) := by
  rw [parseChars_eq h1 h2]
  obtain ⟨r, hr⟩ := dateStr_head y m d
  have hdrop0 : (dateStr y m d).drop 0 = dChar (y / 1000 % 10) :: r := by
    rw [List.drop_zero]
    exact hr
  have hdig := isDig_dChar (y / 1000 % 10)
  have hmod : pModifier (dateStr y m d) 0 = .ok none 0 :=
    pModifier_none (by rw [hdrop0]; exact headNe_of_isDig hdig (by decide))
      (by rw [hdrop0]; exact headNe_of_isDig hdig (by decide))
  have hdate : pDate (dateStr y m d) 0 = .ok (Date.midnight ⟨(y : Int), m, d⟩) 10 := by
    have hdropA : (dateStr y m d).drop 0 = dateStr y m d ++ [] := by
      rw [List.drop_zero, List.append_nil]
    have h0 := pDate_ok hdropA rfl hy hm hm2 hd hd2
    simpa using h0
  have hnil : (dateStr y m d).drop 10 = [] := by
    rw [← dateStr_length y m d]
    exact List.drop_length _
  have hb4 : pDateAndTime (dateStr y m d) 0
      = .err ⟨false, 10, [.expectedChar ' ', .label "time_and_date"], none⟩ :=
    pDateAndTime_err_nospace hdate (by rw [hnil]; rfl)
  have halt : pAlt [pDateAndTime, pDate, pMap anchor.replace_time pTime] (dateStr y m d) 0
      = .ok (Date.midnight ⟨(y : Int), m, d⟩) 10 := by
    rw [pAlt_cons_next hb4 rfl]
    exact pAlt_cons_ok hdate
  have hbr : pBranches anchor yd td (dateStr y m d) 0
      = .ok (Date.midnight ⟨(y : Int), m, d⟩) 10 := by
    rw [pBranches_digit hdrop0 hdig]
    exact halt
  have htop := pTimespec_ok hmod hbr
  apply congrArg some
  apply runP_full
  rw [← dateStr_length y m d] at htop
  exact htop

theorem parse_dateStr_err {y m d : Nat} {anchor yd td : DateTime}
    (h1 : yesterday anchor = some yd) (h2 : tomorrow anchor = some td)
    (hy : y ≤ 9999) (hm99 : m ≤ 99) (hd99 : d ≤ 99)
    (hbad : ¬(1 ≤ m ∧ m ≤ 12 ∧ 1 ≤ d ∧ d ≤ daysInMonth (y : Int) m)) :
    parseChars (dateStr y m d) anchor
      = some (.error ⟨false, 0, [.label "digit count", .label "timespec"], none⟩) := by
  rw [parseChars_eq h1 h2]
  obtain ⟨r, hr⟩ := dateStr_head y m d
  have hdrop0 : (dateStr y m d).drop 0 = dChar (y / 1000 % 10) :: r := by
    rw [List.drop_zero]
    exact hr
  have hdig := isDig_dChar (y / 1000 % 10)
  have hmod : pModifier (dateStr y m d) 0 = .ok none 0 :=
    pModifier_none (by rw [hdrop0]; exact headNe_of_isDig hdig (by decide))
      (by rw [hdrop0]; exact headNe_of_isDig hdig (by decide))
  obtain ⟨s, hs⟩ := dateBuild_err hy hbad
  have hdropA : (dateStr y m d).drop 0 = dateStr y m d ++ [] := by
    rw [List.drop_zero, List.append_nil]
  have hdate : pDate (dateStr y m d) 0 = .err ⟨false, 0, [.label "date format"], some s⟩ :=
    pDate_err_build hdropA rfl hy hm99 hd99 hs
  have hb4 : pDateAndTime (dateStr y m d) 0
      = .err ⟨false, 0, [.label "date format", .label "time_and_date"], some s⟩ :=
    pDateAndTime_err_date hdate
  have hrun : digitRunLen ((dateStr y m d).drop 0) ≠ 2 := by
    rw [List.drop_zero, dateStr_run]
    omega
  have hb6 : pMap anchor.replace_time pTime (dateStr y m d) 0
      = .err ⟨false, 0, [.label "digit count"], none⟩ :=
    pMap_err (pTime_err_run hrun)
  have halt : pAlt [pDateAndTime, pDate, pMap anchor.replace_time pTime] (dateStr y m d) 0
      = .err ⟨false, 0, [.label "digit count"], none⟩ := by
    rw [pAlt_cons_next hb4 rfl, pAlt_cons_next hdate rfl, pAlt_single]
    exact hb6
  have hbr : pBranches anchor yd td (dateStr y m d) 0
      = .err ⟨false, 0, [.label "digit count"], none⟩ := by
    rw [pBranches_digit hdrop0 hdig]
    exact halt
  exact congrArg some (runP_err (pTimespec_err hmod hbr))

theorem timeStrNoSec_length (h mi : Nat) : (timeStrNoSec h mi).length = 5 := rfl

theorem timeStrSec_length (h mi se : Nat) : (timeStrSec h mi se).length = 8 := rfl

theorem from_hms_err {h m s : Nat} (hbad : 23 < h ∨ 59 < m ∨ 59 < s) :
    ∃ msg, Time.from_hms h m s = .error msg := by
  unfold Time.from_hms
  by_cases h1 : 23 < h
  · rw [if_pos h1]
    exact ⟨_, rfl⟩
  · rw [if_neg h1]
    by_cases h2 : 59 < m
    · rw [if_pos h2]
      exact ⟨_, rfl⟩
    · rw [if_neg h2, if_pos (by omega)]
      exact ⟨_, rfl⟩

/-- On input whose digit run at the start is not 4 characters long, both
date-led alternatives backtrack and the dispatcher's tail reduces to the
bare-time alternative. -/
theorem pAlt3_timeonly {anchor : DateTime} {inp : List Char} {res : PRes DateTime}
    (hrun : digitRunLen (inp.drop 0) ≠ 4)
    (hbare : pMap anchor.replace_time pTime inp 0 = res) :
    pAlt [pDateAndTime, pDate, pMap anchor.replace_time pTime] inp 0 = res := by
  have hdate := pDate_err_run hrun
  have hb4 := pDateAndTime_err_date hdate
  rw [pAlt_cons_next hb4 rfl, pAlt_cons_next hdate rfl, pAlt_single]
  exact hbare

theorem parse_timeNoSec_ok {h mi : Nat} {anchor yd td : DateTime}
    (h1 : yesterday anchor = some yd) (h2 : tomorrow anchor = some td)
    (hh : h ≤ 23) (hmi : mi ≤ 59) :
    parseChars (timeStrNoSec h mi) anchor
      = some (.ok (.Point ⟨anchor.date, ⟨h, mi, 0⟩⟩)) := by
  rw [parseChars_eq h1 h2]
  obtain ⟨r, hr⟩ := timeStrNoSec_head h mi
  have hdrop0 : (timeStrNoSec h mi).drop 0 = dChar (h / 10 % 10) :: r := by
    rw [List.drop_zero]
    exact hr
  have hdig := isDig_dChar (h / 10 % 10)
  have hmod : pModifier (timeStrNoSec h mi) 0 = .ok none 0 :=
    pModifier_none (by rw [hdrop0]; exact headNe_of_isDig hdig (by decide))
      (by rw [hdrop0]; exact headNe_of_isDig hdig (by decide))
  have htime : pTime (timeStrNoSec h mi) 0 = .ok ⟨h, mi, 0⟩ 5 := by
    have hdropA : (timeStrNoSec h mi).drop 0 = timeStrNoSec h mi ++ [] := by
      rw [List.drop_zero, List.append_nil]
    have h0 := pTime_ok_nosec hdropA rfl rfl hh hmi
    simpa using h0
  have hrun : digitRunLen ((timeStrNoSec h mi).drop 0) ≠ 4 := by
    rw [List.drop_zero, timeStrNoSec_run]
    omega
  have hbr : pBranches anchor yd td (timeStrNoSec h mi) 0
      = .ok (anchor.replace_time ⟨h, mi, 0⟩) 5 := by
    rw [pBranches_digit hdrop0 hdig]
    exact pAlt3_timeonly hrun (pMap_ok htime)
  have htop := pTimespec_ok hmod hbr
  apply congrArg some
  apply runP_full
  rw [← timeStrNoSec_length h mi] at htop
  exact htop

theorem parse_timeSec_ok {h mi se : Nat} {anchor yd td : DateTime}
    (h1 : yesterday anchor = some yd) (h2 : tomorrow anchor = some td)
    (hh : h ≤ 23) (hmi : mi ≤ 59) (hse : se ≤ 59) :
    parseChars (timeStrSec h mi se) anchor
      = some (.ok (.Point ⟨anchor.date, ⟨h, mi, se⟩⟩)) := by
  rw [parseChars_eq h1 h2]
  obtain ⟨r, hr⟩ := timeStrSec_head h mi se
  have hdrop0 : (timeStrSec h mi se).drop 0 = dChar (h / 10 % 10) :: r := by
    rw [List.drop_zero]
    exact hr
  have hdig := isDig_dChar (h / 10 % 10)
  have hmod : pModifier (timeStrSec h mi se) 0 = .ok none 0 :=
    pModifier_none (by rw [hdrop0]; exact headNe_of_isDig hdig (by decide))
      (by rw [hdrop0]; exact headNe_of_isDig hdig (by decide))
  have htime : pTime (timeStrSec h mi se) 0 = .ok ⟨h, mi, se⟩ 8 := by
    have hdropA : (timeStrSec h mi se).drop 0 = timeStrSec h mi se ++ [] := by
      rw [List.drop_zero, List.append_nil]
    have h0 := pTime_ok_sec hdropA rfl hh hmi hse
    simpa using h0
  have hrun : digitRunLen ((timeStrSec h mi se).drop 0) ≠ 4 := by
    rw [List.drop_zero, timeStrSec_run]
    omega
  have hbr : pBranches anchor yd td (timeStrSec h mi se) 0
      = .ok (anchor.replace_time ⟨h, mi, se⟩) 8 := by
    rw [pBranches_digit hdrop0 hdig]
    exact pAlt3_timeonly hrun (pMap_ok htime)
  have htop := pTimespec_ok hmod hbr
  apply congrArg some
  apply runP_full
  rw [← timeStrSec_length h mi se] at htop
  exact htop

theorem parse_timeNoSec_err {h mi : Nat} {anchor yd td : DateTime}
    (h1 : yesterday anchor = some yd) (h2 : tomorrow anchor = some td)
    (hh99 : h ≤ 99) (hmi99 : mi ≤ 99) (hbad : 23 < h ∨ 59 < mi) :
    ∃ msg, parseChars (timeStrNoSec h mi) anchor
      = some (.error ⟨false, 0, [.label "timespec"], some msg⟩) := by
  rw [parseChars_eq h1 h2]
  obtain ⟨r, hr⟩ := timeStrNoSec_head h mi
  have hdrop0 : (timeStrNoSec h mi).drop 0 = dChar (h / 10 % 10) :: r := by
    rw [List.drop_zero]
    exact hr
  have hdig := isDig_dChar (h / 10 % 10)
  have hmod : pModifier (timeStrNoSec h mi) 0 = .ok none 0 :=
    pModifier_none (by rw [hdrop0]; exact headNe_of_isDig hdig (by decide))
      (by rw [hdrop0]; exact headNe_of_isDig hdig (by decide))
  obtain ⟨msg, hmsg⟩ : ∃ msg, Time.from_hms h mi 0 = .error msg := from_hms_err (by omega)
  have hdropA : (timeStrNoSec h mi).drop 0 = timeStrNoSec h mi ++ [] := by
    rw [List.drop_zero, List.append_nil]
  have htime : pTime (timeStrNoSec h mi) 0 = .err ⟨false, 0, [], some msg⟩ :=
    pTime_err_range_nosec hdropA rfl rfl hh99 hmi99 hmsg
  have hrun : digitRunLen ((timeStrNoSec h mi).drop 0) ≠ 4 := by
    rw [List.drop_zero, timeStrNoSec_run]
    omega
  have hbr : pBranches anchor yd td (timeStrNoSec h mi) 0
      = .err ⟨false, 0, [], some msg⟩ := by
    rw [pBranches_digit hdrop0 hdig]
    exact pAlt3_timeonly hrun (pMap_err htime)
  exact ⟨msg, congrArg some (runP_err (pTimespec_err hmod hbr))⟩

theorem parse_timeSec_err {h mi se : Nat} {anchor yd td : DateTime}
    (h1 : yesterday anchor = some yd) (h2 : tomorrow anchor = some td)
    (hh99 : h ≤ 99) (hmi99 : mi ≤ 99) (hse99 : se ≤ 99)
    (hbad : 23 < h ∨ 59 < mi ∨ 59 < se) :
    ∃ msg, parseChars (timeStrSec h mi se) anchor
      = some (.error ⟨false, 0, [.label "timespec"], some msg⟩) := by
  rw [parseChars_eq h1 h2]
  obtain ⟨r, hr⟩ := timeStrSec_head h mi se
  have hdrop0 : (timeStrSec h mi se).drop 0 = dChar (h / 10 % 10) :: r := by
    rw [List.drop_zero]
    exact hr
  have hdig := isDig_dChar (h / 10 % 10)
  have hmod : pModifier (timeStrSec h mi se) 0 = .ok none 0 :=
    pModifier_none (by rw [hdrop0]; exact headNe_of_isDig hdig (by decide))
      (by rw [hdrop0]; exact headNe_of_isDig hdig (by decide))
  obtain ⟨msg, hmsg⟩ : ∃ msg, Time.from_hms h mi se = .error msg := from_hms_err hbad
  have hdropA : (timeStrSec h mi se).drop 0 = timeStrSec h mi se ++ [] := by
    rw [List.drop_zero, List.append_nil]
  have htime : pTime (timeStrSec h mi se) 0 = .err ⟨false, 0, [], some msg⟩ :=
    pTime_err_range_sec hdropA rfl hh99 hmi99 hse99 hmsg
  have hrun : digitRunLen ((timeStrSec h mi se).drop 0) ≠ 4 := by
    rw [List.drop_zero, timeStrSec_run]
    omega
  have hbr : pBranches anchor yd td (timeStrSec h mi se) 0
      = .err ⟨false, 0, [], some msg⟩ := by
    rw [pBranches_digit hdrop0 hdig]
    exact pAlt3_timeonly hrun (pMap_err htime)
  exact ⟨msg, congrArg some (runP_err (pTimespec_err hmod hbr))⟩

/-! Inversion lemmas used to analyse a successful parse. -/

theorem runP_ok_inv {p : P TimeSpec} {inp : List Char} {a : TimeSpec}
    (h : runP p inp = .ok a) : p inp 0 = .ok a inp.length := by
  unfold runP at h
  cases h0 : p inp 0 with
  | ok b pos =>
    rw [h0] at h
    dsimp only at h
    by_cases hl : pos = inp.length
    · rw [if_pos hl] at h
      injection h with hba
      subst hba
      subst hl
      rfl
    · rw [if_neg hl] at h
      exact absurd h (by simp)
  | err e =>
    rw [h0] at h
    exact absurd h (by simp)

theorem pMap_ok_inv {f : α → β} {p : P α} {inp : List Char} {pos : Nat} {b : β} {p2 : Nat}
    (h : pMap f p inp pos = .ok b p2) : ∃ a, p inp pos = .ok a p2 ∧ b = f a := by
  unfold pMap at h
  cases h0 : p inp pos with
  | ok a q =>
    rw [h0] at h
    cases h
    exact ⟨a, rfl, rfl⟩
  | err e =>
    rw [h0] at h
    cases h

theorem pContext_ok_inv {c : Ctx} {p : P α} {inp : List Char} {pos : Nat} {a : α} {p2 : Nat}
    (h : pContext c p inp pos = .ok a p2) : p inp pos = .ok a p2 := by
  unfold pContext at h
  cases h0 : p inp pos with
  | ok b q =>
    rw [h0] at h
    exact h
  | err e =>
    rw [h0] at h
    cases h

theorem pPair_ok_inv {p : P α} {q : P β} {inp : List Char} {pos : Nat} {x : α × β} {p2 : Nat}
    (h : pPair p q inp pos = .ok x p2) :
    ∃ p1, p inp pos = .ok x.1 p1 ∧ q inp p1 = .ok x.2 p2 := by
  unfold pPair at h
  cases h0 : p inp pos with
  | ok a q1 =>
    rw [h0] at h
    dsimp only at h
    cases h1 : q inp q1 with
    | ok b q2 =>
      rw [h1] at h
      cases h
      exact ⟨q1, rfl, h1⟩
    | err e =>
      rw [h1] at h
      cases h
  | err e =>
    rw [h0] at h
    cases h

/-- C7: for every 4-digit year, 2-digit month and 2-digit day naming a real
calendar date, parsing `YYYY-MM-DD` yields `Point` of that date at midnight;
if the month lies outside [1,12] or the day is not valid for that year and
month (February following the leap-year rule through `daysInMonth`), the
parse fails. -/
theorem C7_date_production (y m d : Nat) (anchor : DateTime)
    (hy : y ≤ 9999) (hm99 : m ≤ 99) (hd99 : d ≤ 99) (hpf : PanicFree anchor) :
    (1 ≤ m ∧ m ≤ 12 ∧ 1 ≤ d ∧ d ≤ daysInMonth (y : Int) m →
      TimeSpec.parse_with_anchor ⟨dateStr y m d⟩ anchor
        = some (.ok (.Point (Date.midnight ⟨(y : Int), m, d⟩)))) ∧
    (¬(1 ≤ m ∧ m ≤ 12 ∧ 1 ≤ d ∧ d ≤ daysInMonth (y : Int) m) →
      TimeSpec.parse_with_anchor ⟨dateStr y m d⟩ anchor
        = some (.error ⟨false, 0, [.label "digit count", .label "timespec"], none⟩)) := by
  obtain ⟨hpf1, hpf2⟩ := hpf
  obtain ⟨yd, hyd⟩ := Option.isSome_iff_exists.mp hpf1
  obtain ⟨td, htd⟩ := Option.isSome_iff_exists.mp hpf2
  constructor
  · intro hv
    exact parse_dateStr_ok hyd htd hy hv.1 hv.2.1 hv.2.2.1 hv.2.2.2
  · intro hv
    exact parse_dateStr_err hyd htd hy hm99 hd99 hv

/-- Witness for C7 at the concrete inputs `2024-08-08` (accepted, as in the
repository's tests) and `2024-13-01` (month out of range, rejected). -/
theorem C7_date_production_witness :
    TimeSpec.parse_with_anchor ⟨dateStr 2024 8 8⟩ ⟨⟨2023, 11, 11⟩, ⟨12, 20, 45⟩⟩
        = some (.ok (.Point (Date.midnight ⟨2024, 8, 8⟩))) ∧
      TimeSpec.parse_with_anchor ⟨dateStr 2024 13 1⟩ ⟨⟨2023, 11, 11⟩, ⟨12, 20, 45⟩⟩
        = some (.error ⟨false, 0, [.label "digit count", .label "timespec"], none⟩) :=
  ⟨(C7_date_production 2024 8 8 ⟨⟨2023, 11, 11⟩, ⟨12, 20, 45⟩⟩ (by decide) (by decide)
      (by decide) (by decide)).1 (by decide),
    (C7_date_production 2024 13 1 ⟨⟨2023, 11, 11⟩, ⟨12, 20, 45⟩⟩ (by decide) (by decide)
      (by decide) (by decide)).2 (by decide)⟩

/-- C8: every valid `HH:MM` or `HH:MM:SS` parsed alone yields `Point` of the
anchor's date combined with the given time, the second defaulting to 0 when
omitted; the parse fails whenever the hour exceeds 23, the minute exceeds 59,
or the second exceeds 59. -/
theorem C8_time_production (h mi se : Nat) (anchor : DateTime)
    (hh99 : h ≤ 99) (hmi99 : mi ≤ 99) (hse99 : se ≤ 99) (hpf : PanicFree anchor) :
    (h ≤ 23 ∧ mi ≤ 59 →
      TimeSpec.parse_with_anchor ⟨timeStrNoSec h mi⟩ anchor
        = some (.ok (.Point ⟨anchor.date, ⟨h, mi, 0⟩⟩))) ∧
    (h ≤ 23 ∧ mi ≤ 59 ∧ se ≤ 59 →
      TimeSpec.parse_with_anchor ⟨timeStrSec h mi se⟩ anchor
        = some (.ok (.Point ⟨anchor.date, ⟨h, mi, se⟩⟩))) ∧
    (23 < h ∨ 59 < mi →
      ∃ e, TimeSpec.parse_with_anchor ⟨timeStrNoSec h mi⟩ anchor = some (.error e)) ∧
    (23 < h ∨ 59 < mi ∨ 59 < se →
      ∃ e, TimeSpec.parse_with_anchor ⟨timeStrSec h mi se⟩ anchor = some (.error e)) := by
  obtain ⟨hpf1, hpf2⟩ := hpf
  obtain ⟨yd, hyd⟩ := Option.isSome_iff_exists.mp hpf1
  obtain ⟨td, htd⟩ := Option.isSome_iff_exists.mp hpf2
  refine ⟨fun hv => ?_, fun hv => ?_, fun hv => ?_, fun hv => ?_⟩
  · exact parse_timeNoSec_ok hyd htd hv.1 hv.2
  · exact parse_timeSec_ok hyd htd hv.1 hv.2.1 hv.2.2
  · obtain ⟨msg, hmsg⟩ := parse_timeNoSec_err hyd htd hh99 hmi99 hv
    exact ⟨_, hmsg⟩
  · obtain ⟨msg, hmsg⟩ := parse_timeSec_err hyd htd hh99 hmi99 hse99 hv
    exact ⟨_, hmsg⟩

/-- Witness for C8 at the repository's test inputs `15:28` and `15:27:59`,
and at the rejected input `25:00`. -/
theorem C8_time_production_witness :
    TimeSpec.parse_with_anchor ⟨timeStrNoSec 15 28⟩ ⟨⟨2024, 8, 8⟩, ⟨12, 20, 45⟩⟩
        = some (.ok (.Point ⟨⟨2024, 8, 8⟩, ⟨15, 28, 0⟩⟩)) ∧
      TimeSpec.parse_with_anchor ⟨timeStrSec 15 27 59⟩ ⟨⟨2024, 8, 8⟩, ⟨12, 20, 45⟩⟩
        = some (.ok (.Point ⟨⟨2024, 8, 8⟩, ⟨15, 27, 59⟩⟩)) ∧
      ∃ e, TimeSpec.parse_with_anchor ⟨timeStrNoSec 25 0⟩ ⟨⟨2024, 8, 8⟩, ⟨12, 20, 45⟩⟩
        = some (.error e) :=
  ⟨(C8_time_production 15 28 0 ⟨⟨2024, 8, 8⟩, ⟨12, 20, 45⟩⟩ (by decide) (by decide)
      (by decide) (by decide)).1 (by decide),
    (C8_time_production 15 27 59 ⟨⟨2024, 8, 8⟩, ⟨12, 20, 45⟩⟩ (by decide) (by decide)
      (by decide) (by decide)).2.1 (by decide),
    (C8_time_production 25 0 0 ⟨⟨2024, 8, 8⟩, ⟨12, 20, 45⟩⟩ (by decide) (by decide)
      (by decide) (by decide)).2.2.1 (by decide)⟩

/-- C5: for every anchor admitting the one-day shifts, `today` parses to
`Point` of the anchor's date at midnight, `yesterday` (resp. `tomorrow`) to
`Point` of the anchor's date minus (resp. plus) exactly one calendar day at
midnight, regardless of the anchor's time-of-day component. -/
theorem C5_keywords (anchor yd td : DateTime)
    (h1 : yesterday anchor = some yd) (h2 : tomorrow anchor = some td) :
    TimeSpec.parse_with_anchor "today" anchor
        = some (.ok (.Point anchor.date.midnight)) ∧
      TimeSpec.parse_with_anchor "yesterday" anchor = some (.ok (.Point yd)) ∧
      TimeSpec.parse_with_anchor "tomorrow" anchor = some (.ok (.Point td)) ∧
      yd = (prevDate anchor.date).midnight ∧ td = (nextDate anchor.date).midnight := by
  have hyd : yd = (prevDate anchor.date).midnight := by
    unfold yesterday checkedSubDay at h1
    by_cases hb : anchor.date.year = -9999 ∧ anchor.date.month = 1 ∧ anchor.date.day = 1
    · rw [if_pos hb] at h1
      cases h1
    · rw [if_neg hb] at h1
      simp only [Option.map_some'] at h1
      exact (Option.some.inj h1).symm
  have htd : td = (nextDate anchor.date).midnight := by
    unfold tomorrow checkedAddDay at h2
    by_cases hb : anchor.date.year = 9999 ∧ anchor.date.month = 12 ∧ anchor.date.day = 31
    · rw [if_pos hb] at h2
      cases h2
    · rw [if_neg hb] at h2
      simp only [Option.map_some'] at h2
      exact (Option.some.inj h2).symm
  refine ⟨?_, ?_, ?_, hyd, htd⟩
  · show parseChars ("today".data) anchor = _
    rw [parseChars_eq h1 h2]
    exact congrArg some rfl
  · show parseChars ("yesterday".data) anchor = _
    rw [parseChars_eq h1 h2]
    exact congrArg some rfl
  · show parseChars ("tomorrow".data) anchor = _
    rw [parseChars_eq h1 h2]
    exact congrArg some rfl

/-- Witness for C5 at the anchor 2023-11-11 12:20:45 used by the
repository's tests. -/
theorem C5_keywords_witness :
    TimeSpec.parse_with_anchor "today" ⟨⟨2023, 11, 11⟩, ⟨12, 20, 45⟩⟩
        = some (.ok (.Point ⟨⟨2023, 11, 11⟩, ⟨0, 0, 0⟩⟩)) ∧
      TimeSpec.parse_with_anchor "yesterday" ⟨⟨2023, 11, 11⟩, ⟨12, 20, 45⟩⟩
        = some (.ok (.Point ⟨⟨2023, 11, 10⟩, ⟨0, 0, 0⟩⟩)) ∧
      TimeSpec.parse_with_anchor "tomorrow" ⟨⟨2023, 11, 11⟩, ⟨12, 20, 45⟩⟩
        = some (.ok (.Point ⟨⟨2023, 11, 12⟩, ⟨0, 0, 0⟩⟩)) := by
  have h := C5_keywords ⟨⟨2023, 11, 11⟩, ⟨12, 20, 45⟩⟩ ⟨⟨2023, 11, 10⟩, ⟨0, 0, 0⟩⟩
    ⟨⟨2023, 11, 12⟩, ⟨0, 0, 0⟩⟩ rfl rfl
  exact ⟨h.1, h.2.1, h.2.2.1⟩

/-- C4: on every successful parse, an input starting with a plus sign yields
`After`, one starting with a minus sign yields `Before`, and any other input
yields `Point`; the modifier is consumed before the alternatives run, and
exactly one of the three variants is produced. -/
theorem C4_modifier (s : String) (anchor : DateTime) (r : TimeSpec)
    (hok : TimeSpec.parse_with_anchor s anchor = some (.ok r)) :
    (s.data.head? = some '+' → ∃ dt, r = .After dt) ∧
    (s.data.head? = some '-' → ∃ dt, r = .Before dt) ∧
    (s.data.head? ≠ some '+' ∧ s.data.head? ≠ some '-' → ∃ dt, r = .Point dt) := by
  unfold TimeSpec.parse_with_anchor parseChars at hok
  cases hyd : yesterday anchor with
  | none =>
    rw [hyd] at hok
    cases htd : tomorrow anchor <;> rw [htd] at hok <;> exact absurd hok (by simp)
  | some yd =>
    rw [hyd] at hok
    cases htd : tomorrow anchor with
    | none =>
      rw [htd] at hok
      exact absurd hok (by simp)
    | some td =>
      rw [htd] at hok
      have hrun : runP (pTimespec anchor yd td) s.data = .ok r := Option.some.inj hok
      have hp := runP_ok_inv hrun
      unfold pTimespec at hp
      obtain ⟨x, hx, hr⟩ := pMap_ok_inv hp
      obtain ⟨p1, hmod, hbr⟩ := pPair_ok_inv (pContext_ok_inv hx)
      cases hs : s.data with
      | nil =>
        have hmodeq : pModifier s.data 0 = .ok none 0 := by
          rw [hs]
          exact pModifier_none rfl rfl
        rw [hmodeq] at hmod
        injection hmod with hx1 hp1
        refine ⟨fun hh => absurd hh (by simp [hs]), fun hh => absurd hh (by simp [hs]),
          fun _ => ⟨x.2, ?_⟩⟩
        rw [hr]
        simp [applyModifier, ← hx1]
      | cons c cs =>
        by_cases hc1 : c = '+'
        · subst hc1
          have hmodeq : pModifier s.data 0 = .ok (some ['+']) 1 := by
            rw [hs]
            exact pModifier_plus (by rw [List.drop_zero])
          rw [hmodeq] at hmod
          injection hmod with hx1 hp1
          refine ⟨fun _ => ⟨x.2, ?_⟩, fun hh => ?_, fun hh => absurd (by simp [hs]) hh.1⟩
          · rw [hr]
            simp [applyModifier, ← hx1]
          · exact absurd (Option.some.inj hh) (by decide)
        · by_cases hc2 : c = '-'
          · subst hc2
            have hmodeq : pModifier s.data 0 = .ok (some ['-']) 1 := by
              rw [hs]
              exact pModifier_minus (by rw [List.drop_zero])
            rw [hmodeq] at hmod
            injection hmod with hx1 hp1
            refine ⟨fun hh => ?_, fun _ => ⟨x.2, ?_⟩, fun hh => absurd (by simp [hs]) hh.2⟩
            · exact absurd (Option.some.inj hh) (by decide)
            · rw [hr]
              simp [applyModifier, ← hx1]
          · have hmodeq : pModifier s.data 0 = .ok none 0 := by
              rw [hs]
              exact pModifier_none (headNe_cons_of_ne hc1) (headNe_cons_of_ne hc2)
            rw [hmodeq] at hmod
            injection hmod with hx1 hp1
            refine ⟨fun hh => ?_, fun hh => ?_, fun _ => ⟨x.2, ?_⟩⟩
            · exact absurd (Option.some.inj hh) hc1
            · exact absurd (Option.some.inj hh) hc2
            · rw [hr]
              simp [applyModifier, ← hx1]

/-- Witness for C4 at the concrete inputs `+15:28`, `-15:28` and `15:28`
with the anchor 2024-08-08 12:20:45 of the repository's tests. -/
theorem C4_modifier_witness :
    (∃ dt, TimeSpec.After ⟨⟨2024, 8, 8⟩, ⟨15, 28, 0⟩⟩ = TimeSpec.After dt) ∧
      (∃ dt, TimeSpec.Before ⟨⟨2024, 8, 8⟩, ⟨15, 28, 0⟩⟩ = TimeSpec.Before dt) ∧
      (∃ dt, TimeSpec.Point ⟨⟨2024, 8, 8⟩, ⟨15, 28, 0⟩⟩ = TimeSpec.Point dt) :=
  ⟨(C4_modifier "+15:28" ⟨⟨2024, 8, 8⟩, ⟨12, 20, 45⟩⟩
      (.After ⟨⟨2024, 8, 8⟩, ⟨15, 28, 0⟩⟩) rfl).1 rfl,
    (C4_modifier "-15:28" ⟨⟨2024, 8, 8⟩, ⟨12, 20, 45⟩⟩
      (.Before ⟨⟨2024, 8, 8⟩, ⟨15, 28, 0⟩⟩) rfl).2.1 rfl,
    (C4_modifier "15:28" ⟨⟨2024, 8, 8⟩, ⟨12, 20, 45⟩⟩
      (.Point ⟨⟨2024, 8, 8⟩, ⟨15, 28, 0⟩⟩) rfl).2.2 (by decide)⟩

/-! Whole-parse lemmas for the datetime shape. -/

theorem parse_dtNoSec_ok {y m d h mi : Nat} {anchor yd td : DateTime}
    (h1 : yesterday anchor = some yd) (h2 : tomorrow anchor = some td)
    (hy : y ≤ 9999) (hm : 1 ≤ m) (hm2 : m ≤ 12) (hd : 1 ≤ d)
    (hd2 : d ≤ daysInMonth (y : Int) m) (hh : h ≤ 23) (hmi : mi ≤ 59) :
    parseChars (dtStrNoSec y m d h mi) anchor
      = some (.ok (.Point ⟨⟨(y : Int), m, d⟩, ⟨h, mi, 0⟩⟩)) := by
  rw [parseChars_eq h1 h2]
  obtain ⟨r0, hr0⟩ := dateStr_head y m d
  have hdrop0 : (dtStrNoSec y m d h mi).drop 0
      = dChar (y / 1000 % 10) :: (r0 ++ ' ' :: timeStrNoSec h mi) := by
    rw [List.drop_zero]
    unfold dtStrNoSec
    rw [hr0]
    rfl
  have hdig := isDig_dChar (y / 1000 % 10)
  have hmod : pModifier (dtStrNoSec y m d h mi) 0 = .ok none 0 :=
    pModifier_none (by rw [hdrop0]; exact headNe_of_isDig hdig (by decide))
      (by rw [hdrop0]; exact headNe_of_isDig hdig (by decide))
  have hdropA : (dtStrNoSec y m d h mi).drop 0
      = dateStr y m d ++ (' ' :: timeStrNoSec h mi) := by
    rw [List.drop_zero]
    rfl
  have hdate : pDate (dtStrNoSec y m d h mi) 0
      = .ok (Date.midnight ⟨(y : Int), m, d⟩) 10 := by
    have h0 := pDate_ok hdropA rfl hy hm hm2 hd hd2
    simpa using h0
  have hsp : (dtStrNoSec y m d h mi).drop 10 = ' ' :: timeStrNoSec h mi := by
    have h0 := drop_append_eq hdropA
    simpa [dateStr_length] using h0
  have hdropT : (dtStrNoSec y m d h mi).drop 11 = timeStrNoSec h mi ++ [] := by
    have hspx : (dtStrNoSec y m d h mi).drop 10 = [' '] ++ timeStrNoSec h mi := hsp
    have h0 := drop_append_eq hspx
    simpa using h0
  have htime : pTime (dtStrNoSec y m d h mi) 11 = .ok ⟨h, mi, 0⟩ 16 := by
    have h0 := pTime_ok_nosec hdropT rfl rfl hh hmi
    simpa using h0
  have hb4 : pDateAndTime (dtStrNoSec y m d h mi) 0
      = .ok (DateTime.replace_time (Date.midnight ⟨(y : Int), m, d⟩) ⟨h, mi, 0⟩) 16 :=
    pDateAndTime_ok hdate hsp htime
  have hbr : pBranches anchor yd td (dtStrNoSec y m d h mi) 0
      = .ok (DateTime.replace_time (Date.midnight ⟨(y : Int), m, d⟩) ⟨h, mi, 0⟩) 16 := by
    rw [pBranches_digit hdrop0 hdig]
    exact pAlt_cons_ok hb4
  have htop := pTimespec_ok hmod hbr
  apply congrArg some
  apply runP_full
  have hlen : (dtStrNoSec y m d h mi).length = 16 := rfl
  rw [← hlen] at htop
  exact htop

theorem parse_dtSec_ok {y m d h mi se : Nat} {anchor yd td : DateTime}
    (h1 : yesterday anchor = some yd) (h2 : tomorrow anchor = some td)
    (hy : y ≤ 9999) (hm : 1 ≤ m) (hm2 : m ≤ 12) (hd : 1 ≤ d)
    (hd2 : d ≤ daysInMonth (y : Int) m) (hh : h ≤ 23) (hmi : mi ≤ 59) (hse : se ≤ 59) :
    parseChars (dtStrSec y m d h mi se) anchor
      = some (.ok (.Point ⟨⟨(y : Int), m, d⟩, ⟨h, mi, se⟩⟩)) := by
  rw [parseChars_eq h1 h2]
  obtain ⟨r0, hr0⟩ := dateStr_head y m d
  have hdrop0 : (dtStrSec y m d h mi se).drop 0
      = dChar (y / 1000 % 10) :: (r0 ++ ' ' :: timeStrSec h mi se) := by
    rw [List.drop_zero]
    unfold dtStrSec
    rw [hr0]
    rfl
  have hdig := isDig_dChar (y / 1000 % 10)
  have hmod : pModifier (dtStrSec y m d h mi se) 0 = .ok none 0 :=
    pModifier_none (by rw [hdrop0]; exact headNe_of_isDig hdig (by decide))
      (by rw [hdrop0]; exact headNe_of_isDig hdig (by decide))
  have hdropA : (dtStrSec y m d h mi se).drop 0
      = dateStr y m d ++ (' ' :: timeStrSec h mi se) := by
    rw [List.drop_zero]
    rfl
  have hdate : pDate (dtStrSec y m d h mi se) 0
      = .ok (Date.midnight ⟨(y : Int), m, d⟩) 10 := by
    have h0 := pDate_ok hdropA rfl hy hm hm2 hd hd2
    simpa using h0
  have hsp : (dtStrSec y m d h mi se).drop 10 = ' ' :: timeStrSec h mi se := by
    have h0 := drop_append_eq hdropA
    simpa [dateStr_length] using h0
  have hdropT : (dtStrSec y m d h mi se).drop 11 = timeStrSec h mi se ++ [] := by
    have hspx : (dtStrSec y m d h mi se).drop 10 = [' '] ++ timeStrSec h mi se := hsp
    have h0 := drop_append_eq hspx
    simpa using h0
  have htime : pTime (dtStrSec y m d h mi se) 11 = .ok ⟨h, mi, se⟩ 19 := by
    have h0 := pTime_ok_sec hdropT rfl hh hmi hse
    simpa using h0
  have hb4 : pDateAndTime (dtStrSec y m d h mi se) 0
      = .ok (DateTime.replace_time (Date.midnight ⟨(y : Int), m, d⟩) ⟨h, mi, se⟩) 19 :=
    pDateAndTime_ok hdate hsp htime
  have hbr : pBranches anchor yd td (dtStrSec y m d h mi se) 0
      = .ok (DateTime.replace_time (Date.midnight ⟨(y : Int), m, d⟩) ⟨h, mi, se⟩) 19 := by
    rw [pBranches_digit hdrop0 hdig]
    exact pAlt_cons_ok hb4
  have htop := pTimespec_ok hmod hbr
  apply congrArg some
  apply runP_full
  have hlen : (dtStrSec y m d h mi se).length = 19 := rfl
  rw [← hlen] at htop
  exact htop

theorem parse_dtSep_err {y m d h mi : Nat} {c : Char} {anchor yd td : DateTime}
    (h1 : yesterday anchor = some yd) (h2 : tomorrow anchor = some td)
    (hy : y ≤ 9999) (hm : 1 ≤ m) (hm2 : m ≤ 12) (hd : 1 ≤ d)
    (hd2 : d ≤ daysInMonth (y : Int) m) (hc : c ≠ ' ') :
    ∃ e, parseChars (dateStr y m d ++ c :: timeStrNoSec h mi) anchor
      = some (.error e) := by
  rw [parseChars_eq h1 h2]
  obtain ⟨r0, hr0⟩ := dateStr_head y m d
  have hdrop0 : (dateStr y m d ++ c :: timeStrNoSec h mi).drop 0
      = dChar (y / 1000 % 10) :: (r0 ++ c :: timeStrNoSec h mi) := by
    rw [List.drop_zero, hr0]
    rfl
  have hdig := isDig_dChar (y / 1000 % 10)
  have hmod : pModifier (dateStr y m d ++ c :: timeStrNoSec h mi) 0 = .ok none 0 :=
    pModifier_none (by rw [hdrop0]; exact headNe_of_isDig hdig (by decide))
      (by rw [hdrop0]; exact headNe_of_isDig hdig (by decide))
  by_cases hcd : isDig c = true
  · -- a digit in the separator slot extends the day field's digit run
    have hshape : (dateStr y m d ++ c :: timeStrNoSec h mi).drop 0
        = pad4 y ++ ('-' :: (pad2 m ++ ('-' :: (pad2 d ++ c :: timeStrNoSec h mi)))) := by
      rw [List.drop_zero]
      simp [dateStr, List.append_assoc]
    have hrun2 : digitRunLen (pad2 d ++ c :: timeStrNoSec h mi) ≠ 2 := by
      rw [digitRunLen_append_all (fun _ hc2 => mem_pad2_isDig hc2)]
      have hlen2 : (pad2 d).length = 2 := rfl
      have hstep : digitRunLen (c :: timeStrNoSec h mi)
          = digitRunLen (timeStrNoSec h mi) + 1 := by
        simp [digitRunLen, hcd]
      omega
    have hdate := pDate_err_day hshape hy (by omega) hrun2
    have hb4 := pDateAndTime_err_date hdate
    have hrun0 : digitRunLen ((dateStr y m d ++ c :: timeStrNoSec h mi).drop 0) ≠ 2 := by
      rw [List.drop_zero]
      have hall : digitRunLen (pad4 y ++ ('-' :: (pad2 m ++ '-' :: pad2 d))
          ++ c :: timeStrNoSec h mi) = 4 + digitRunLen (('-' :: (pad2 m ++ '-' :: pad2 d))
          ++ c :: timeStrNoSec h mi) := by
        rw [List.append_assoc]
        exact digitRunLen_append_all (fun _ hc2 => mem_pad4_isDig hc2)
      have hz : digitRunLen (('-' :: (pad2 m ++ '-' :: pad2 d))
          ++ c :: timeStrNoSec h mi) = 0 := rfl
      unfold dateStr
      intro hcon
      rw [show pad4 y ++ '-' :: (pad2 m ++ '-' :: pad2 d)
          = pad4 y ++ ('-' :: (pad2 m ++ '-' :: pad2 d)) from rfl] at hcon
      rw [hall, hz] at hcon
      omega
    have hb6 : pMap anchor.replace_time pTime (dateStr y m d ++ c :: timeStrNoSec h mi) 0
        = .err ⟨false, 0, [.label "digit count"], none⟩ :=
      pMap_err (pTime_err_run hrun0)
    have hbr : pBranches anchor yd td (dateStr y m d ++ c :: timeStrNoSec h mi) 0
        = .err ⟨false, 0, [.label "digit count"], none⟩ := by
      rw [pBranches_digit hdrop0 hdig]
      rw [pAlt_cons_next hb4 rfl, pAlt_cons_next hdate rfl, pAlt_single]
      exact hb6
    exact ⟨_, congrArg some (runP_err (pTimespec_err hmod hbr))⟩
  · -- a non-space, non-digit separator leaves trailing input after the date
    have hcd2 : isDig c = false := by
      cases hb : isDig c
      · rfl
      · exact absurd hb hcd
    have hdropA : (dateStr y m d ++ c :: timeStrNoSec h mi).drop 0
        = dateStr y m d ++ (c :: timeStrNoSec h mi) := by
      rw [List.drop_zero]
    have hdate : pDate (dateStr y m d ++ c :: timeStrNoSec h mi) 0
        = .ok (Date.midnight ⟨(y : Int), m, d⟩) 10 := by
      have h0 := pDate_ok hdropA (by simp [headNotDig, hcd2]) hy hm hm2 hd hd2
      simpa using h0
    have hsp : (dateStr y m d ++ c :: timeStrNoSec h mi).drop 10 = c :: timeStrNoSec h mi := by
      have h0 := drop_append_eq hdropA
      exact h0
    have hb4 : pDateAndTime (dateStr y m d ++ c :: timeStrNoSec h mi) 0
        = .err ⟨false, 10, [.expectedChar ' ', .label "time_and_date"], none⟩ :=
      pDateAndTime_err_nospace hdate (by rw [hsp]; exact headNe_cons_of_ne hc)
    have hbr : pBranches anchor yd td (dateStr y m d ++ c :: timeStrNoSec h mi) 0
        = .ok (Date.midnight ⟨(y : Int), m, d⟩) 10 := by
      rw [pBranches_digit hdrop0 hdig]
      rw [pAlt_cons_next hb4 rfl]
      exact pAlt_cons_ok hdate
    have htop := pTimespec_ok hmod hbr
    have hlen : (dateStr y m d ++ c :: timeStrNoSec h mi).length = 16 := rfl
    exact ⟨_, congrArg some (runP_trailing htop (by rw [hlen]; omega))⟩

/-- C6: a valid date and a valid time separated by exactly one space parse to
`Point` of that date carrying that time (with and without the seconds field),
because the date-plus-time alternative is attempted before the date-only
alternative; any single separator character other than a space makes the
parse fail. -/
theorem C6_datetime_production (y m d h mi se : Nat) (c : Char) (anchor : DateTime)
    (hy : y ≤ 9999) (hv : 1 ≤ m ∧ m ≤ 12 ∧ 1 ≤ d ∧ d ≤ daysInMonth (y : Int) m)
    (hh : h ≤ 23) (hmi : mi ≤ 59) (hse : se ≤ 59) (hpf : PanicFree anchor) :
    TimeSpec.parse_with_anchor ⟨dtStrNoSec y m d h mi⟩ anchor
        = some (.ok (.Point ⟨⟨(y : Int), m, d⟩, ⟨h, mi, 0⟩⟩)) ∧
      TimeSpec.parse_with_anchor ⟨dtStrSec y m d h mi se⟩ anchor
        = some (.ok (.Point ⟨⟨(y : Int), m, d⟩, ⟨h, mi, se⟩⟩)) ∧
      (c ≠ ' ' →
        ∃ e, TimeSpec.parse_with_anchor ⟨dateStr y m d ++ c :: timeStrNoSec h mi⟩ anchor
          = some (.error e)) := by
  obtain ⟨hpf1, hpf2⟩ := hpf
  obtain ⟨yd, hyd⟩ := Option.isSome_iff_exists.mp hpf1
  obtain ⟨td, htd⟩ := Option.isSome_iff_exists.mp hpf2
  exact ⟨parse_dtNoSec_ok hyd htd hy hv.1 hv.2.1 hv.2.2.1 hv.2.2.2 hh hmi,
    parse_dtSec_ok hyd htd hy hv.1 hv.2.1 hv.2.2.1 hv.2.2.2 hh hmi hse,
    fun hc => parse_dtSep_err hyd htd hy hv.1 hv.2.1 hv.2.2.1 hv.2.2.2 hc⟩

/-- Witness for C6 at the repository's test inputs `2024-08-08 14:10` and
`2024-08-08 14:10:11`, and at the rejected separator `T`. -/
theorem C6_datetime_production_witness :
    TimeSpec.parse_with_anchor ⟨dtStrNoSec 2024 8 8 14 10⟩ ⟨⟨2023, 11, 11⟩, ⟨12, 20, 45⟩⟩
        = some (.ok (.Point ⟨⟨2024, 8, 8⟩, ⟨14, 10, 0⟩⟩)) ∧
      TimeSpec.parse_with_anchor ⟨dtStrSec 2024 8 8 14 10 11⟩ ⟨⟨2023, 11, 11⟩, ⟨12, 20, 45⟩⟩
        = some (.ok (.Point ⟨⟨2024, 8, 8⟩, ⟨14, 10, 11⟩⟩)) ∧
      ∃ e, TimeSpec.parse_with_anchor
          ⟨dateStr 2024 8 8 ++ 'T' :: timeStrNoSec 14 10⟩ ⟨⟨2023, 11, 11⟩, ⟨12, 20, 45⟩⟩
        = some (.error e) := by
  have h := C6_datetime_production 2024 8 8 14 10 11 'T' ⟨⟨2023, 11, 11⟩, ⟨12, 20, 45⟩⟩
    (by decide) (by decide) (by decide) (by decide) (by decide) (by decide)
  exact ⟨h.1, h.2.1, h.2.2 (by decide)⟩

/-- C1: the claim that `parse_with_anchor` never panics for anchors in the
4-digit-year domain is right, and the code is wrong: at the valid anchor
9999-12-31 (a 4-digit year) the eagerly evaluated `tomorrow(anchor)` leaves
the `time` crate's supported date range, its `checked_add` returns `None`,
and the `expect` whose message calls this case unreachable fires — on every
input, here `today`, which never needs the shifted date. `none` models that
panic. -/
theorem C1_panic_reachable :
    fourDigitYear ⟨9999, 12, 31⟩ ∧ Date.Valid ⟨9999, 12, 31⟩ ∧
      TimeSpec.parse_with_anchor "today" ⟨⟨9999, 12, 31⟩, ⟨0, 0, 0⟩⟩ = none :=
  ⟨by decide, by decide, rfl⟩

/-- C2 counterexample: on `2024-13-01` the first date delimiter has matched
and the subsequent mismatch is an out-of-range month (`dateBuild` fails),
yet the reported failure is a backtracking (`cut = false`) digit-count error
produced by the bare-time sibling alternative at offset 0 — so sibling
alternatives are tried after the claimed commit point, contrary to the
claim. -/
theorem C2_commit_counterexample :
    TimeSpec.parse_with_anchor "2024-13-01" ⟨⟨2023, 11, 11⟩, ⟨12, 20, 45⟩⟩
        = some (.error ⟨false, 0, [.label "digit count", .label "timespec"], none⟩) ∧
      dateBuild (2024, 13, 1) = .error "month component range" ∧
      FourDigitsDash ("2024-13-01".data) :=
  ⟨rfl, rfl, ⟨'2', '0', '2', '4', ['1', '3', '-', '0', '1'], rfl, rfl, rfl, rfl, rfl⟩⟩

/-- C2 amended: once the input starts with four digits and the date
delimiter, a failure of the date field builder makes the whole parse fail —
the sibling alternatives are still tried on a backtracking failure, but none
of them can succeed, so a malformed date is never reinterpreted as a bare
time. -/
theorem C2_commit (l : List Char) (anchor : DateTime) (hshape : FourDigitsDash l)
    (hfail : ∀ v p2, pDate l 0 ≠ .ok v p2) (hpf : PanicFree anchor) :
    ∃ e, TimeSpec.parse_with_anchor ⟨l⟩ anchor = some (.error e) := by
  obtain ⟨hpf1, hpf2⟩ := hpf
  obtain ⟨yd, hyd⟩ := Option.isSome_iff_exists.mp hpf1
  obtain ⟨td, htd⟩ := Option.isSome_iff_exists.mp hpf2
  obtain ⟨a, b, c0, d0, rest, hl, ha, hb, hc0, hd0⟩ := hshape
  show ∃ e, parseChars l anchor = some (.error e)
  rw [parseChars_eq hyd htd]
  have hdrop0 : l.drop 0 = a :: (b :: c0 :: d0 :: '-' :: rest) := by
    rw [List.drop_zero, hl]
  have hmod : pModifier l 0 = .ok none 0 :=
    pModifier_none (by rw [hdrop0]; exact headNe_of_isDig ha (by decide))
      (by rw [hdrop0]; exact headNe_of_isDig ha (by decide))
  cases hdres : pDate l 0 with
  | ok v p2 => exact absurd hdres (hfail v p2)
  | err e =>
    have hb4 := pDateAndTime_err_date hdres
    by_cases hcut : e.cut = true
    · have hbr : pBranches anchor yd td l 0
          = .err { e with ctx := e.ctx ++ [.label "time_and_date"] } := by
        rw [pBranches_digit hdrop0 ha]
        exact pAlt_cons_cut hb4 hcut
      exact ⟨_, congrArg some (runP_err (pTimespec_err hmod hbr))⟩
    · have hcf : e.cut = false := by
        cases hbb : e.cut
        · rfl
        · exact absurd hbb hcut
      have hrun : digitRunLen (l.drop 0) ≠ 2 := by
        rw [hdrop0]
        simp [digitRunLen, ha, hb, hc0, hd0]
      have hb6 : pMap anchor.replace_time pTime l 0
          = .err ⟨false, 0, [.label "digit count"], none⟩ :=
        pMap_err (pTime_err_run hrun)
      have hbr : pBranches anchor yd td l 0
          = .err ⟨false, 0, [.label "digit count"], none⟩ := by
        rw [pBranches_digit hdrop0 ha]
        rw [pAlt_cons_next hb4 hcf, pAlt_cons_next hdres hcf, pAlt_single]
        exact hb6
      exact ⟨_, congrArg some (runP_err (pTimespec_err hmod hbr))⟩

/-- Witness for the amended C2 at the input `2024-13-01`, whose date field
fails with an out-of-range month. -/
theorem C2_commit_witness :
    ∃ e, TimeSpec.parse_with_anchor ⟨("2024-13-01".data)⟩ ⟨⟨2023, 11, 11⟩, ⟨12, 20, 45⟩⟩
      = some (.error e) :=
  C2_commit ("2024-13-01".data) ⟨⟨2023, 11, 11⟩, ⟨12, 20, 45⟩⟩
    ⟨'2', '0', '2', '4', ['1', '3', '-', '0', '1'], rfl, rfl, rfl, rfl, rfl⟩
    (fun v p2 h =>
      PRes.noConfusion ((rfl : pDate ("2024-13-01".data) 0
        = .err ⟨false, 0, [.label "date format"], some "month component range"⟩).symm.trans h))
    (by decide)

/-- C9 counterexample: `2024-08-08` is accepted in full by the date-only
production, and `2024-08-08 14:10` extends it with nonempty trailing
characters, yet the parse of the extended string succeeds (through the
higher-priority date-plus-time alternative) instead of failing. -/
theorem C9_trailing_counterexample :
    pDate ("2024-08-08".data) 0
        = .ok (Date.midnight ⟨2024, 8, 8⟩) (("2024-08-08".data).length) ∧
      ("2024-08-08 14:10").data = ("2024-08-08").data ++ (" 14:10").data ∧
      (" 14:10").data ≠ [] ∧
      TimeSpec.parse_with_anchor "2024-08-08 14:10" ⟨⟨2023, 11, 11⟩, ⟨12, 20, 45⟩⟩
        = some (.ok (.Point ⟨⟨2024, 8, 8⟩, ⟨14, 10, 0⟩⟩)) :=
  ⟨rfl, rfl, by decide, rfl⟩

/-- C9 amended: the dispatcher must consume the entire input — whenever the
alternative it actually commits to stops before the end of the string, the
parse fails with the leftover position as the offset; but a string accepted
by a lower-priority production followed by more characters can still be
accepted whole by a higher-priority production. -/
theorem C9_trailing (s : String) (anchor yd td : DateTime) (a : TimeSpec) (pos : Nat)
    (h1 : yesterday anchor = some yd) (h2 : tomorrow anchor = some td)
    (hok : pTimespec anchor yd td s.data 0 = .ok a pos) (hne : pos ≠ s.data.length) :
    TimeSpec.parse_with_anchor s anchor = some (.error ⟨false, pos, [], none⟩) := by
  show parseChars s.data anchor = _
  rw [parseChars_eq h1 h2]
  exact congrArg some (runP_trailing hok hne)

/-- Witness for the amended C9 at `2024-08-08X`: the date production stops
at offset 10 and the trailing `X` makes the parse fail there. -/
theorem C9_trailing_witness :
    TimeSpec.parse_with_anchor "2024-08-08X" ⟨⟨2023, 11, 11⟩, ⟨12, 20, 45⟩⟩
      = some (.error ⟨false, 10, [], none⟩) :=
  C9_trailing "2024-08-08X" ⟨⟨2023, 11, 11⟩, ⟨12, 20, 45⟩⟩
    ⟨⟨2023, 11, 10⟩, ⟨0, 0, 0⟩⟩ ⟨⟨2023, 11, 12⟩, ⟨0, 0, 0⟩⟩
    (.Point ⟨⟨2024, 8, 8⟩, ⟨0, 0, 0⟩⟩) 10 rfl rfl rfl (by decide)

/-! Congruence lemmas in the anchor argument. -/

theorem pMap_congr {f : α → β} {p q : P α} {inp : List Char} {pos : Nat}
    (h : p inp pos = q inp pos) : pMap f p inp pos = pMap f q inp pos := by
  unfold pMap
  rw [h]

theorem pContext_congr {c : Ctx} {p q : P α} {inp : List Char} {pos : Nat}
    (h : p inp pos = q inp pos) : pContext c p inp pos = pContext c q inp pos := by
  unfold pContext
  rw [h]

theorem runP_congr {p q : P TimeSpec} {inp : List Char} (h : p inp 0 = q inp 0) :
    runP p inp = runP q inp := by
  unfold runP
  rw [h]

theorem pPair_eval {p : P α} {q : P β} {inp : List Char} {pos : Nat} {a : α} {p1 : Nat}
    (h : p inp pos = .ok a p1) :
    pPair p q inp pos
      = match q inp p1 with
        | .ok b p2 => .ok (a, b) p2
        | .err e => .err e := by
  unfold pPair
  rw [h]

/-- On an input whose remaining characters start with four digits and the
date delimiter, the dispatcher's outcome does not depend on the anchor: the
keyword values go unused and the bare-time branch fails identically. -/
theorem pBranches_anchor_congr (a1 yd1 td1 a2 yd2 td2 : DateTime) {l : List Char}
    {p : Nat} (hdrop : FourDigitsDash (l.drop p)) :
    pBranches a1 yd1 td1 l p = pBranches a2 yd2 td2 l p := by
  obtain ⟨a, b, c0, d0, r2, hr, ha, hb, hc0, hd0⟩ := hdrop
  have hdropc : l.drop p = a :: (b :: c0 :: d0 :: '-' :: r2) := hr
  rw [pBranches_digit hdropc ha, pBranches_digit hdropc ha]
  cases h4 : pDateAndTime l p with
  | ok v p2 => rw [pAlt_cons_ok h4, pAlt_cons_ok h4]
  | err e4 =>
    by_cases hc4 : e4.cut = true
    · rw [pAlt_cons_cut h4 hc4, pAlt_cons_cut h4 hc4]
    · have hcf4 : e4.cut = false := by
        cases hbb : e4.cut
        · rfl
        · exact absurd hbb hc4
      rw [pAlt_cons_next h4 hcf4, pAlt_cons_next h4 hcf4]
      cases h5 : pDate l p with
      | ok v p2 => rw [pAlt_cons_ok h5, pAlt_cons_ok h5]
      | err e5 =>
        by_cases hc5 : e5.cut = true
        · rw [pAlt_cons_cut h5 hc5, pAlt_cons_cut h5 hc5]
        · have hcf5 : e5.cut = false := by
            cases hbb : e5.cut
            · rfl
            · exact absurd hbb hc5
          rw [pAlt_cons_next h5 hcf5, pAlt_cons_next h5 hcf5, pAlt_single, pAlt_single]
          have hrun : digitRunLen (l.drop p) ≠ 2 := by
            rw [hdropc]
            simp [digitRunLen, ha, hb, hc0, hd0]
          rw [pMap_err (pTime_err_run hrun), pMap_err (pTime_err_run hrun)]

/-- C10 counterexample: both anchors lie in the 4-digit-year domain and the
input is an absolute date, yet the two calls disagree — the second one hits
the eager `tomorrow` panic (modelled by `none`) before parsing starts. -/
theorem C10_anchor_counterexample :
    fourDigitYear ⟨2023, 11, 11⟩ ∧ fourDigitYear ⟨9999, 12, 31⟩ ∧
      TimeSpec.parse_with_anchor "2024-08-08" ⟨⟨2023, 11, 11⟩, ⟨12, 20, 45⟩⟩
        = some (.ok (.Point ⟨⟨2024, 8, 8⟩, ⟨0, 0, 0⟩⟩)) ∧
      TimeSpec.parse_with_anchor "2024-08-08" ⟨⟨9999, 12, 31⟩, ⟨0, 0, 0⟩⟩ = none :=
  ⟨by decide, by decide, rfl, rfl⟩

/-- C10 amended: for inputs of the absolute forms — an optional sign
followed by four digits and the date delimiter — any two anchors that do not
hit the eager one-day-shift panic produce identical results: the anchor can
influence the outcome only through the keyword and bare-time productions,
which such inputs never reach. -/
theorem C10_anchor_independent (l pre rest : List Char) (a1 a2 : DateTime)
    (hpre : pre = [] ∨ pre = ['+'] ∨ pre = ['-']) (hl : l = pre ++ rest)
    (hshape : FourDigitsDash rest) (hp1 : PanicFree a1) (hp2 : PanicFree a2) :
    TimeSpec.parse_with_anchor ⟨l⟩ a1 = TimeSpec.parse_with_anchor ⟨l⟩ a2 := by
  obtain ⟨h11, h12⟩ := hp1
  obtain ⟨yd1, hyd1⟩ := Option.isSome_iff_exists.mp h11
  obtain ⟨td1, htd1⟩ := Option.isSome_iff_exists.mp h12
  obtain ⟨h21, h22⟩ := hp2
  obtain ⟨yd2, hyd2⟩ := Option.isSome_iff_exists.mp h21
  obtain ⟨td2, htd2⟩ := Option.isSome_iff_exists.mp h22
  show parseChars l a1 = parseChars l a2
  rw [parseChars_eq hyd1 htd1, parseChars_eq hyd2 htd2]
  apply congrArg some
  apply runP_congr
  unfold pTimespec
  apply pMap_congr
  apply pContext_congr
  obtain ⟨a, b, c0, d0, r2, hr, ha, hb, hc0, hd0⟩ := hshape
  rcases hpre with hpre | hpre | hpre
  · subst hpre
    simp only [List.nil_append] at hl
    rw [hl]
    have hmod : pModifier rest 0 = .ok none 0 := by
      refine pModifier_none ?_ ?_ <;>
        (rw [List.drop_zero, hr]; exact headNe_of_isDig ha (by decide))
    rw [pPair_eval hmod, pPair_eval hmod]
    have hcongr := pBranches_anchor_congr a1 yd1 td1 a2 yd2 td2
      (show FourDigitsDash (rest.drop 0) from
        ⟨a, b, c0, d0, r2, by rw [List.drop_zero, hr], ha, hb, hc0, hd0⟩)
    rw [hcongr]
  · subst hpre
    rw [hl]
    have hmod : pModifier (['+'] ++ rest) 0 = .ok (some ['+']) 1 := pModifier_plus rfl
    rw [pPair_eval hmod, pPair_eval hmod]
    have hcongr := pBranches_anchor_congr a1 yd1 td1 a2 yd2 td2
      (show FourDigitsDash ((['+'] ++ rest).drop 1) from
        ⟨a, b, c0, d0, r2, by rw [show (['+'] ++ rest).drop 1 = rest from rfl, hr],
          ha, hb, hc0, hd0⟩)
    rw [hcongr]
  · subst hpre
    rw [hl]
    have hmod : pModifier (['-'] ++ rest) 0 = .ok (some ['-']) 1 := pModifier_minus rfl
    rw [pPair_eval hmod, pPair_eval hmod]
    have hcongr := pBranches_anchor_congr a1 yd1 td1 a2 yd2 td2
      (show FourDigitsDash ((['-'] ++ rest).drop 1) from
        ⟨a, b, c0, d0, r2, by rw [show (['-'] ++ rest).drop 1 = rest from rfl, hr],
          ha, hb, hc0, hd0⟩)
    rw [hcongr]

/-! Boundedness of every combinator: the stream position, and hence every
reported offset, stays within the input. -/

theorem bounded_pLiteral (t : List Char) : Bounded (pLiteral t) := by
  intro inp pos hpos
  unfold pLiteral
  by_cases h : (inp.drop pos).take t.length = t
  · rw [if_pos h]
    dsimp only
    have h1 : t.length ≤ (inp.drop pos).length := by
      have h2 : ((inp.drop pos).take t.length).length = t.length := by rw [h]
      rw [List.length_take] at h2
      omega
    rw [List.length_drop] at h1
    omega
  · rw [if_neg h]
    dsimp only
    exact hpos

theorem bounded_pDigit1 : Bounded pDigit1 := by
  intro inp pos hpos
  unfold pDigit1
  by_cases h : digitRunLen (inp.drop pos) = 0
  · rw [if_pos h]
    dsimp only
    exact hpos
  · rw [if_neg h]
    dsimp only
    have h1 := digitRunLen_le (inp.drop pos)
    rw [List.length_drop] at h1
    omega

theorem bounded_pMap {f : α → β} {p : P α} (hp : Bounded p) : Bounded (pMap f p) := by
  intro inp pos hpos
  have h0 := hp inp pos hpos
  unfold pMap
  cases hres : p inp pos with
  | ok a p2 =>
    rw [hres] at h0
    dsimp only at h0 ⊢
    exact h0
  | err e =>
    rw [hres] at h0
    dsimp only at h0 ⊢
    exact h0

theorem bounded_pVerify {f : α → Bool} {p : P α} (hp : Bounded p) :
    Bounded (pVerify f p) := by
  intro inp pos hpos
  have h0 := hp inp pos hpos
  unfold pVerify
  cases hres : p inp pos with
  | ok a p2 =>
    rw [hres] at h0
    dsimp only at h0 ⊢
    by_cases hf : f a = true
    · rw [if_pos hf]
      dsimp only
      exact h0
    · rw [if_neg hf]
      dsimp only
      exact hpos
  | err e =>
    rw [hres] at h0
    dsimp only at h0 ⊢
    exact h0

theorem bounded_pTryMap {f : α → Except String β} {p : P α} (hp : Bounded p) :
    Bounded (pTryMap f p) := by
  intro inp pos hpos
  have h0 := hp inp pos hpos
  unfold pTryMap
  cases hres : p inp pos with
  | ok a p2 =>
    rw [hres] at h0
    dsimp only at h0 ⊢
    cases f a with
    | ok b => exact h0
    | error s => exact hpos
  | err e =>
    rw [hres] at h0
    dsimp only at h0 ⊢
    exact h0

theorem bounded_pContext {c : Ctx} {p : P α} (hp : Bounded p) :
    Bounded (pContext c p) := by
  intro inp pos hpos
  have h0 := hp inp pos hpos
  unfold pContext
  cases hres : p inp pos with
  | ok a p2 =>
    rw [hres] at h0
    dsimp only at h0 ⊢
    exact h0
  | err e =>
    rw [hres] at h0
    dsimp only at h0 ⊢
    exact h0

theorem bounded_pCutErr {p : P α} (hp : Bounded p) : Bounded (pCutErr p) := by
  intro inp pos hpos
  have h0 := hp inp pos hpos
  unfold pCutErr
  cases hres : p inp pos with
  | ok a p2 =>
    rw [hres] at h0
    dsimp only at h0 ⊢
    exact h0
  | err e =>
    rw [hres] at h0
    dsimp only at h0 ⊢
    exact h0

theorem bounded_pOpt {p : P α} (hp : Bounded p) : Bounded (pOpt p) := by
  intro inp pos hpos
  have h0 := hp inp pos hpos
  unfold pOpt
  cases hres : p inp pos with
  | ok a p2 =>
    rw [hres] at h0
    dsimp only at h0 ⊢
    exact h0
  | err e =>
    rw [hres] at h0
    dsimp only at h0 ⊢
    by_cases hc : e.cut = true
    · rw [if_pos hc]
      dsimp only
      exact h0
    · rw [if_neg hc]
      dsimp only
      exact hpos

theorem bounded_pPreceded {p : P α} {q : P β} (hp : Bounded p) (hq : Bounded q) :
    Bounded (pPreceded p q) := by
  intro inp pos hpos
  have h0 := hp inp pos hpos
  unfold pPreceded
  cases hres : p inp pos with
  | ok a p1 =>
    rw [hres] at h0
    dsimp only at h0 ⊢
    exact hq inp p1 h0
  | err e =>
    rw [hres] at h0
    dsimp only at h0 ⊢
    exact h0

theorem bounded_pPair {p : P α} {q : P β} (hp : Bounded p) (hq : Bounded q) :
    Bounded (pPair p q) := by
  intro inp pos hpos
  have h0 := hp inp pos hpos
  unfold pPair
  cases hres : p inp pos with
  | ok a p1 =>
    rw [hres] at h0
    dsimp only at h0 ⊢
    have h1 := hq inp p1 h0
    cases hres2 : q inp p1 with
    | ok b p2 =>
      rw [hres2] at h1
      dsimp only at h1 ⊢
      exact h1
    | err e =>
      rw [hres2] at h1
      dsimp only at h1 ⊢
      exact h1
  | err e =>
    rw [hres] at h0
    dsimp only at h0 ⊢
    exact h0

theorem bounded_pAlt_nil : Bounded (pAlt ([] : List (P α))) := by
  intro inp pos hpos
  dsimp only [pAlt]
  exact hpos

theorem bounded_pAlt_cons {p : P α} {ps : List (P α)} (hp : Bounded p)
    (hps : Bounded (pAlt ps)) : Bounded (pAlt (p :: ps)) := by
  intro inp pos hpos
  have h0 := hp inp pos hpos
  have h1 := hps inp pos hpos
  cases hres : p inp pos with
  | ok a p2 =>
    rw [hres] at h0
    rw [pAlt_cons_ok hres]
    dsimp only at h0 ⊢
    exact h0
  | err e =>
    rw [hres] at h0
    dsimp only at h0
    by_cases hc : e.cut = true
    · rw [pAlt_cons_cut hres hc]
      dsimp only
      exact h0
    · have hc2 : e.cut = false := by
        cases hb : e.cut
        · rfl
        · exact absurd hb hc
      cases ps with
      | nil =>
        rw [pAlt_single, hres]
        dsimp only
        exact h0
      | cons q qs =>
        rw [pAlt_cons_next hres hc2]
        exact h1

theorem bounded_pDigits (len bound : Nat) : Bounded (pDigits len bound) := by
  unfold pDigits
  exact bounded_pContext (bounded_pTryMap (bounded_pVerify bounded_pDigit1))

theorem bounded_pDateDelim : Bounded pDateDelim := by
  unfold pDateDelim
  exact bounded_pContext (bounded_pContext (bounded_pCutErr (bounded_pLiteral _)))

theorem bounded_pDate : Bounded pDate := by
  unfold pDate pTriple
  exact bounded_pContext (bounded_pMap (bounded_pTryMap (bounded_pPair (bounded_pDigits _ _)
    (bounded_pPair (bounded_pPreceded bounded_pDateDelim (bounded_pDigits _ _))
      (bounded_pPreceded bounded_pDateDelim (bounded_pDigits _ _))))))

theorem bounded_pTimeDelimCut : Bounded pTimeDelimCut := by
  unfold pTimeDelimCut
  exact bounded_pContext (bounded_pContext (bounded_pCutErr (bounded_pLiteral _)))

theorem bounded_pTimeDelimPlain : Bounded pTimeDelimPlain := by
  unfold pTimeDelimPlain
  exact bounded_pContext (bounded_pContext (bounded_pLiteral _))

theorem bounded_pTime : Bounded pTime := by
  unfold pTime pTriple
  exact bounded_pTryMap (bounded_pPair (bounded_pDigits _ _)
    (bounded_pPair (bounded_pPreceded bounded_pTimeDelimCut
        (bounded_pCutErr (bounded_pDigits _ _)))
      (bounded_pOpt (bounded_pPreceded bounded_pTimeDelimPlain
        (bounded_pCutErr (bounded_pDigits _ _))))))

theorem bounded_pDateAndTime : Bounded pDateAndTime := by
  unfold pDateAndTime pSeparatedPair pTriple
  exact bounded_pContext (bounded_pMap (bounded_pMap (bounded_pPair bounded_pDate
    (bounded_pPair (bounded_pContext (bounded_pLiteral _))
      (bounded_pContext (bounded_pCutErr bounded_pTime))))))

theorem bounded_pKeyword (w : List Char) (v : DateTime) : Bounded (pKeyword w v) := by
  unfold pKeyword pValue
  exact bounded_pMap (bounded_pLiteral _)

theorem bounded_pBranches (anchor yd td : DateTime) : Bounded (pBranches anchor yd td) := by
  unfold pBranches
  exact bounded_pAlt_cons (bounded_pKeyword _ _) (bounded_pAlt_cons (bounded_pKeyword _ _)
    (bounded_pAlt_cons (bounded_pKeyword _ _) (bounded_pAlt_cons bounded_pDateAndTime
      (bounded_pAlt_cons bounded_pDate (bounded_pAlt_cons (bounded_pMap bounded_pTime)
        bounded_pAlt_nil)))))

theorem bounded_pModifier : Bounded pModifier := by
  unfold pModifier
  exact bounded_pOpt (bounded_pAlt_cons (bounded_pLiteral _)
    (bounded_pAlt_cons (bounded_pLiteral _) bounded_pAlt_nil))

theorem bounded_pTimespec (anchor yd td : DateTime) : Bounded (pTimespec anchor yd td) := by
  unfold pTimespec
  exact bounded_pMap (bounded_pContext (bounded_pPair bounded_pModifier
    (bounded_pBranches anchor yd td)))

/-- C3 counterexample: `2024-13-01` does not fail at the month field with a
calendar-range error; it fails at offset 0 with the digit-count error of the
bare-time alternative, even though the month field really is the offending
component (`dateBuild` rejects month 13). -/
theorem C3_offset_counterexample :
    TimeSpec.parse_with_anchor "2024-13-01" ⟨⟨2023, 11, 11⟩, ⟨12, 20, 45⟩⟩
        = some (.error ⟨false, 0, [.label "digit count", .label "timespec"], none⟩) ∧
      (0 : Nat) ≠ 5 ∧
      dateBuild (2024, 13, 1) = .error "month component range" :=
  ⟨rfl, by decide, rfl⟩

/-- C3 amended: every failure of `parse_with_anchor` reports an offset that
lies within the input (at most one past its last character) — the position
where the stream of the last-tried or committed alternative stopped — and
`2024-13-01` in particular fails at offset 0 with the digit-count error of
the bare-time alternative, not at the month field with a calendar-range
error. -/
theorem C3_failure_offset :
    (∀ (s : String) (anchor : DateTime) (e : PErr),
        TimeSpec.parse_with_anchor s anchor = some (.error e) → e.pos ≤ s.data.length) ∧
      TimeSpec.parse_with_anchor "2024-13-01" ⟨⟨2023, 11, 11⟩, ⟨12, 20, 45⟩⟩
        = some (.error ⟨false, 0, [.label "digit count", .label "timespec"], none⟩) := by
  constructor
  · intro s anchor e hE
    unfold TimeSpec.parse_with_anchor parseChars at hE
    cases hyd : yesterday anchor with
    | none =>
      rw [hyd] at hE
      cases htd : tomorrow anchor <;> rw [htd] at hE <;> exact absurd hE (by simp)
    | some yd =>
      rw [hyd] at hE
      cases htd : tomorrow anchor with
      | none =>
        rw [htd] at hE
        exact absurd hE (by simp)
      | some td =>
        rw [htd] at hE
        have hrun : runP (pTimespec anchor yd td) s.data = .error e := Option.some.inj hE
        have hbnd := bounded_pTimespec anchor yd td s.data 0 (Nat.zero_le _)
        unfold runP at hrun
        cases hres : pTimespec anchor yd td s.data 0 with
        | ok a pos =>
          rw [hres] at hrun hbnd
          dsimp only at hrun hbnd
          by_cases hl : pos = s.data.length
          · rw [if_pos hl] at hrun
            exact absurd hrun (by simp)
          · rw [if_neg hl] at hrun
            injection hrun with he
            rw [← he]
            exact hbnd
        | err e2 =>
          rw [hres] at hrun hbnd
          dsimp only at hrun hbnd
          injection hrun with he
          rw [← he]
          exact hbnd
  · rfl

/-- Witness for the amended C3 at the input `2024-13-01`. -/
theorem C3_failure_offset_witness :
    (⟨false, 0, [.label "digit count", .label "timespec"], none⟩ : PErr).pos
      ≤ ("2024-13-01".data).length :=
  C3_failure_offset.1 "2024-13-01" ⟨⟨2023, 11, 11⟩, ⟨12, 20, 45⟩⟩
    ⟨false, 0, [.label "digit count", .label "timespec"], none⟩ rfl

/-- Witness for the amended C10: two panic-free anchors give the same result
on the absolute input `2024-08-08`. -/
theorem C10_anchor_independent_witness :
    TimeSpec.parse_with_anchor ⟨("2024-08-08".data)⟩ ⟨⟨2023, 11, 11⟩, ⟨12, 20, 45⟩⟩
      = TimeSpec.parse_with_anchor ⟨("2024-08-08".data)⟩ ⟨⟨2024, 8, 8⟩, ⟨0, 0, 0⟩⟩ :=
  C10_anchor_independent ("2024-08-08".data) [] ("2024-08-08".data)
    ⟨⟨2023, 11, 11⟩, ⟨12, 20, 45⟩⟩ ⟨⟨2024, 8, 8⟩, ⟨0, 0, 0⟩⟩ (Or.inl rfl) rfl
    ⟨'2', '0', '2', '4', ['0', '8', '-', '0', '8'], rfl, rfl, rfl, rfl, rfl⟩
    (by decide) (by decide)

end Intervalle
